import Mathlib

/-!
Verification of the go-eventlog core against its natural-language
specification.  The Go sources are shallowly embedded: byte slices become
`List Nat` (each element a byte value), Go maps become association lists
(unique keys, insertion order), fallible functions return `Except`, and the
hash functions (SHA-1/256/384/512) are kept abstract as parameters since only
their algebraic use matters.  Go struct fields named `Type` are rendered `Ty`.
-/

namespace GoEL

/-- Byte strings are lists of byte values. -/
abbrev Bytes := List Nat

/-- First-match association-list lookup (models Go map read). -/
def lookupA {α β : Type} [DecidableEq α] : List (α × β) → α → Option β
  | [], _ => none
  | (k, v) :: rest, a => if k = a then some v else lookupA rest a

/-- Association-list insert/overwrite (models Go map write): replaces the
binding in place when the key is present, otherwise appends. -/
def updateA {α β : Type} [DecidableEq α] : List (α × β) → α → β → List (α × β)
  | [], a, b => [(a, b)]
  | (k, v) :: rest, a, b =>
    if k = a then (a, b) :: rest else (k, v) :: updateA rest a b

theorem lookupA_updateA {α β : Type} [DecidableEq α]
    (m : List (α × β)) (a : α) (b : β) (i : α) :
    lookupA (updateA m a b) i = if i = a then some b else lookupA m i := by
  induction m with
  | nil =>
    simp only [updateA, lookupA]
    by_cases h : i = a
    · subst h; simp
    · have h2 : ¬ a = i := fun hh => h hh.symm
      simp [h, h2]
  | cons p rest ih =>
    obtain ⟨k, v⟩ := p
    simp only [updateA]
    by_cases hka : k = a
    · subst hka
      simp only [if_pos rfl, lookupA]
      by_cases hik : i = k
      · subst hik; simp
      · have hk2 : ¬ k = i := fun hh => hik hh.symm
        simp [hik, hk2]
    · simp only [if_neg hka, lookupA]
      by_cases hki : k = i
      · have hia : ¬ i = a := by
          intro hh; exact hka (hki.trans hh)
        simp [hki, hia]
      · simp [hki, ih]

theorem updateA_keys {α β : Type} [DecidableEq α]
    (m : List (α × β)) (a : α) (b : β) :
    (updateA m a b).map Prod.fst =
      if a ∈ m.map Prod.fst then m.map Prod.fst else m.map Prod.fst ++ [a] := by
  induction m with
  | nil => simp [updateA]
  | cons p rest ih =>
    obtain ⟨k, v⟩ := p
    by_cases hka : k = a
    · subst hka
      simp [updateA]
    · have hka2 : ¬ a = k := fun h => hka h.symm
      by_cases hm : a ∈ rest.map Prod.fst <;>
        simp [updateA, hka, hka2, hm, ih]

theorem updateA_nodup_keys {α β : Type} [DecidableEq α]
    (m : List (α × β)) (a : α) (b : β)
    (h : (m.map Prod.fst).Nodup) : ((updateA m a b).map Prod.fst).Nodup := by
  rw [updateA_keys]
  by_cases hm : a ∈ m.map Prod.fst
  · simpa [hm]
  · simp only [hm, if_false]
    refine List.Nodup.append h (List.nodup_singleton a) ?_
    intro x hx hxa
    have : x = a := by simpa using hxa
    subst this
    exact hm hx

theorem updateA_not_mem_keys {α β : Type} [DecidableEq α]
    (m : List (α × β)) (a : α) (b : β)
    (h : a ∉ m.map Prod.fst) : updateA m a b = m ++ [(a, b)] := by
  induction m with
  | nil => simp [updateA]
  | cons p rest ih =>
    obtain ⟨k, v⟩ := p
    have hka : ¬ k = a := by
      intro hk; exact h (by simp [hk])
    have hrest : a ∉ rest.map Prod.fst := fun hm => h (by simp [hm])
    simp [updateA, hka, ih hrest]

theorem lookupA_eq_some_of_mem {α β : Type} [DecidableEq α]
    (m : List (α × β)) (a : α) (b : β)
    (hnd : (m.map Prod.fst).Nodup) (hmem : (a, b) ∈ m) :
    lookupA m a = some b := by
  induction m with
  | nil => cases hmem
  | cons p rest ih =>
    obtain ⟨k, v⟩ := p
    rw [List.map_cons, List.nodup_cons] at hnd
    rcases List.mem_cons.mp hmem with heq | htail
    · cases heq
      simp [lookupA]
    · have hk : ¬ k = a := by
        intro hk
        subst hk
        exact hnd.1 (List.mem_map.mpr ⟨(k, b), htail, rfl⟩)
      simp [lookupA, hk, ih hnd.2 htail]

theorem mem_of_lookupA_eq_some {α β : Type} [DecidableEq α]
    (m : List (α × β)) (a : α) (b : β)
    (h : lookupA m a = some b) : (a, b) ∈ m := by
  induction m with
  | nil => simp [lookupA] at h
  | cons p rest ih =>
    obtain ⟨k, v⟩ := p
    by_cases hk : k = a
    · subst hk
      simp [lookupA] at h
      simp [h]
    · simp only [lookupA, if_neg hk] at h
      exact List.mem_cons_of_mem _ (ih h)

/-- Big-endian encoding of a natural number into `w` bytes
(the value is taken modulo `256 ^ w`, as Go integer conversions do). -/
def natToBE : Nat → Nat → Bytes
  | 0, _ => []
  | w + 1, v => natToBE w (v / 256) ++ [v % 256]

/-- Big-endian decoding of a byte string to a natural number. -/
def beToNat (bs : Bytes) : Nat := bs.foldl (fun a b => a * 256 + b) 0

theorem beToNat_append_singleton (bs : Bytes) (b : Nat) :
    beToNat (bs ++ [b]) = beToNat bs * 256 + b := by
  simp [beToNat, List.foldl_append]

theorem natToBE_length (w v : Nat) : (natToBE w v).length = w := by
  induction w generalizing v with
  | zero => simp [natToBE]
  | succ w ih => simp [natToBE, ih]

theorem beToNat_natToBE (w v : Nat) : beToNat (natToBE w v) = v % 256 ^ w := by
  induction w generalizing v with
  | zero => simp [natToBE, beToNat, Nat.mod_one]
  | succ w ih =>
    rw [natToBE, beToNat_append_singleton, ih]
    have h256 : (256 : Nat) ^ (w + 1) = 256 * 256 ^ w := by ring
    rw [h256, Nat.mod_mul]
    ring

/-! ## CEL codec (package cel, canonical_eventlog.go) -/

/-- Structured error kinds for the CEL codec, replacing Go's formatted
error strings. -/
inductive CelErr : Type
  | eof
  | notRecnum
  | badRecnumLength
  | notIndexType
  | badIndexLength
  | notDigests
  | digestsBufferEnds
  | unknownAlgorithm
  | badRecord (n : Nat)
  | differingMRTypes (n : Nat)
  | badArgs
  | unsupportedMRType
  | contentErr (n : Nat)
  | extendFailed
  | badDigestLength
  | hashToAlgFailed
  | noDigest (h : Nat)
  | missingRegister (i : Nat)
  | replayMismatch (l : List Nat)
  | cryptoHashErr
  deriving DecidableEq, Repr

/-- TLV per CEL spec: 1-byte type (field `Ty`, Go `Type`), 4-byte big-endian
length, value. -/
structure TLV where
  Ty : Nat
  Value : Bytes
  deriving DecidableEq, Repr

/-- A Canonical Eventlog record.  `Digests` models the Go
`map[crypto.Hash][]byte` as an insertion-ordered association list with
unique keys; keys are Go `crypto.Hash` enum values. -/
structure Record where
  RecNum : Nat
  Index : Nat
  IndexType : Nat
  Digests : List (Nat × Bytes)
  Content : TLV
  deriving DecidableEq, Repr

/-- The concrete CEL implementation: record list plus measurement register
type (Go `eventLog`, field `Ty` for Go `Type`; its zero value is 0). -/
structure eventLog where
  Recs : List Record
  Ty : Nat
  deriving DecidableEq, Repr

/-- PCRType = 1 (CEL_PCR_NVindex TLV type for PCR indices). -/
def PCRTypeV : Nat := 1

/-- CCMRType = 108 (CEL_PCR_NVindex TLV type for RTMR indices). -/
def CCMRTypeV : Nat := 108

/-- supportedMRType: only PCR (1) and CCMR (108) are supported. -/
def supportedMRType (mrType : Nat) : Bool :=
  mrType = PCRTypeV || mrType = CCMRTypeV

/-- Go `crypto.Hash.Size()` for the TPM-supported algorithms
(crypto.SHA1 = 3, SHA256 = 5, SHA384 = 6, SHA512 = 7). -/
def hashSizeOf (h : Nat) : Nat :=
  if h = 3 then 20 else if h = 5 then 32 else
  if h = 6 then 48 else if h = 7 then 64 else 0

/-- tpm2.HashToAlgorithm: crypto.Hash to TCG registry algorithm id. -/
def hashToAlgorithm (h : Nat) : Except CelErr Nat :=
  if h = 3 then .ok 4 else if h = 5 then .ok 11 else
  if h = 6 then .ok 12 else if h = 7 then .ok 13 else .error .hashToAlgFailed

/-- tpm2.Algorithm.Hash: TCG registry algorithm id back to crypto.Hash. -/
def algorithmToHash (a : Nat) : Except CelErr Nat :=
  if a = 4 then .ok 3 else if a = 11 then .ok 5 else
  if a = 12 then .ok 6 else if a = 13 then .ok 7 else .error .unknownAlgorithm

/-- TLV.MarshalBinary: type byte, 4-byte big-endian length, value. -/
def TLV.MarshalBinary (t : TLV) : Bytes :=
  t.Ty :: natToBE 4 t.Value.length ++ t.Value

/-- unmarshalFirstTLV: read one TLV off the front of the buffer, returning
the TLV and the remaining bytes; io.EOF when the buffer ends early. -/
def unmarshalFirstTLV : Bytes → Except CelErr (TLV × Bytes)
  | [] => .error .eof
  | t :: rest =>
    if rest.length < 4 then .error .eof
    else
      let valueLength := beToNat (rest.take 4)
      let rest2 := rest.drop 4
      if rest2.length < valueLength then .error .eof
      else .ok (⟨t, rest2.take valueLength⟩, rest2.drop valueLength)

theorem unmarshalFirstTLV_shrink (buf : Bytes) (t : TLV) (rest : Bytes)
    (h : unmarshalFirstTLV buf = .ok (t, rest)) : rest.length < buf.length := by
  cases buf with
  | nil => simp [unmarshalFirstTLV] at h
  | cons b bs =>
    simp only [unmarshalFirstTLV] at h
    split at h
    · cases h
    · split at h
      · cases h
      · injection h with h1
        rw [Prod.mk.injEq] at h1
        obtain ⟨_, hrest⟩ := h1
        subst hrest
        simp only [List.length_drop, List.length_cons]
        omega

/-- unmarshalRecNum: the TLV must have the recnum type (0) and an 8-byte
value; returns the record number. -/
def unmarshalRecNum (tlv : TLV) : Except CelErr Nat :=
  if tlv.Ty ≠ 0 then .error .notRecnum
  else if tlv.Value.length ≠ 8 then .error .badRecnumLength
  else .ok (beToNat tlv.Value)

/-- unmarshalIndex: the TLV must have the PCR (1) or CCMR (108) type and a
1-byte value; returns (index type, register index). -/
def unmarshalIndex (tlv : TLV) : Except CelErr (Nat × Nat) :=
  if tlv.Ty ≠ PCRTypeV ∧ tlv.Ty ≠ CCMRTypeV then .error .notIndexType
  else if tlv.Value.length ≠ 1 then .error .badIndexLength
  else .ok (tlv.Ty, tlv.Value.headD 0)

/-- Inner loop of unmarshalDigests: parse consecutive digest TLVs from the
value buffer, building the digest map. -/
def digestsLoop : Bytes → List (Nat × Bytes) → Except CelErr (List (Nat × Bytes))
  | [], m => .ok m
  | b :: bs, m =>
    match h : unmarshalFirstTLV (b :: bs) with
    | .error _ => .error .digestsBufferEnds
    | .ok (dtlv, rest) =>
      match algorithmToHash dtlv.Ty with
      | .error e => .error e
      | .ok hashAlg => digestsLoop rest (updateA m hashAlg dtlv.Value)
  termination_by buf _ => buf.length
  decreasing_by
    simp_wf
    have := unmarshalFirstTLV_shrink _ _ _ h
    simpa using this

/-- unmarshalDigests: the TLV must have the digests type (3); its value is a
concatenation of per-algorithm digest TLVs. -/
def unmarshalDigests (tlv : TLV) : Except CelErr (List (Nat × Bytes)) :=
  if tlv.Ty ≠ 3 then .error .notDigests
  else digestsLoop tlv.Value []

/-- decodeToCELR: read the four TLVs of one record off the buffer. -/
def decodeToCELR (buf : Bytes) : Except CelErr (Record × Bytes) :=
  match unmarshalFirstTLV buf with
  | .error e => .error e
  | .ok (recnumT, b1) =>
    match unmarshalRecNum recnumT with
    | .error e => .error e
    | .ok rn =>
      match unmarshalFirstTLV b1 with
      | .error e => .error e
      | .ok (idxT, b2) =>
        match unmarshalIndex idxT with
        | .error e => .error e
        | .ok (ity, idx) =>
          match unmarshalFirstTLV b2 with
          | .error e => .error e
          | .ok (digT, b3) =>
            match unmarshalDigests digT with
            | .error e => .error e
            | .ok dm =>
              match unmarshalFirstTLV b3 with
              | .error e => .error e
              | .ok (content, b4) =>
                .ok (⟨rn, idx, ity, dm, content⟩, b4)

theorem decodeToCELR_shrink (buf : Bytes) (r : Record) (rest : Bytes)
    (h : decodeToCELR buf = .ok (r, rest)) : rest.length < buf.length := by
  simp only [decodeToCELR] at h
  split at h
  · cases h
  · rename_i heq1
    split at h
    · cases h
    · split at h
      · cases h
      · rename_i heq2
        split at h
        · cases h
        · split at h
          · cases h
          · rename_i heq3
            split at h
            · cases h
            · split at h
              · cases h
              · rename_i heq4
                injection h with h1
                rw [Prod.mk.injEq] at h1
                obtain ⟨_, hrest⟩ := h1
                subst hrest
                have s1 := unmarshalFirstTLV_shrink _ _ _ heq1
                have s2 := unmarshalFirstTLV_shrink _ _ _ heq2
                have s3 := unmarshalFirstTLV_shrink _ _ _ heq3
                have s4 := unmarshalFirstTLV_shrink _ _ _ heq4
                omega

/-- The DecodeToCEL record loop: decode records until the buffer is empty. -/
def decodeLoop : Bytes → List Record → Except CelErr (List Record)
  | [], acc => .ok acc
  | b :: bs, acc =>
    match h : decodeToCELR (b :: bs) with
    | .error e => .error e
    | .ok (r, rest) => decodeLoop rest (acc ++ [r])
  termination_by buf _ => buf.length
  decreasing_by
    simp_wf
    have := decodeToCELR_shrink _ _ _ h
    simpa using this

/-- The MR-type uniformity check DecodeToCEL performs when the log has more
than one record. -/
def checkUniform (z : Nat) : List Record → Except CelErr Unit
  | [] => .ok ()
  | r :: rest =>
    if ¬ supportedMRType r.IndexType then .error (.badRecord r.RecNum)
    else if r.IndexType ≠ z then .error (.differingMRTypes r.RecNum)
    else checkUniform z rest

/-- DecodeToCEL: decode all records; when the log has more than one record,
check that all records carry one supported MR type and record it (otherwise
the log's type stays at the zero value 0). -/
def DecodeToCEL (buf : Bytes) : Except CelErr eventLog :=
  match decodeLoop buf [] with
  | .error e => .error e
  | .ok recs =>
    match recs with
    | r0 :: _ :: _ =>
      match checkUniform r0.IndexType recs with
      | .error e => .error e
      | .ok _ => .ok ⟨recs, r0.IndexType⟩
    | _ => .ok ⟨recs, 0⟩

/-! ### CEL encoding -/

/-- createRecNumField: recnum TLV (type 0, 8-byte big-endian value). -/
def createRecNumField (recNum : Nat) : TLV := ⟨0, natToBE 8 recNum⟩

/-- createIndexField: index TLV (type is the MR type byte, 1-byte value). -/
def createIndexField (indexType indexNum : Nat) : TLV := ⟨indexType, [indexNum]⟩

/-- Loop of createDigestField: one inner TLV per digest-map entry, in map
iteration order; the digest length must match the algorithm and the
algorithm must have a TCG id. -/
def createDigestFieldLoop : List (Nat × Bytes) → Except CelErr Bytes
  | [] => .ok []
  | (hashAlgo, hash) :: rest =>
    if hash.length ≠ hashSizeOf hashAlgo then .error .badDigestLength
    else
      match hashToAlgorithm hashAlgo with
      | .error e => .error e
      | .ok tpmHashAlg =>
        match createDigestFieldLoop rest with
        | .error e => .error e
        | .ok restBytes => .ok (TLV.MarshalBinary ⟨tpmHashAlg, hash⟩ ++ restBytes)

/-- createDigestField: digests TLV (type 3) containing the per-algorithm
inner TLVs. -/
def createDigestField (digestMap : List (Nat × Bytes)) : Except CelErr TLV :=
  match createDigestFieldLoop digestMap with
  | .error e => .error e
  | .ok v => .ok ⟨3, v⟩

/-- Record.EncodeCELR: recnum, index, digests and content TLVs, marshalled
and concatenated. -/
def Record.EncodeCELR (r : Record) : Except CelErr Bytes :=
  match createDigestField r.Digests with
  | .error e => .error e
  | .ok digests =>
    .ok ((createRecNumField r.RecNum).MarshalBinary ++
         (createIndexField r.IndexType r.Index).MarshalBinary ++
         digests.MarshalBinary ++ r.Content.MarshalBinary)

/-- Record loop of EncodeCEL. -/
def encodeRecs : List Record → Except CelErr Bytes
  | [] => .ok []
  | r :: rest =>
    match r.EncodeCELR with
    | .error e => .error e
    | .ok b =>
      match encodeRecs rest with
      | .error e => .error e
      | .ok bs => .ok (b ++ bs)

/-- eventLog.EncodeCEL: encode every record in order. -/
def eventLog.EncodeCEL (c : eventLog) : Except CelErr Bytes := encodeRecs c.Recs

/-! ### AppendEvent -/

/-- The cel.Content interface: digest generation per algorithm plus the
content TLV. -/
structure ContentT where
  GenerateDigest : Nat → Except CelErr Bytes
  GetTLV : Except CelErr TLV

/-- Loop of generateDigestMap: hash the event with each algorithm in order,
building the digest map. -/
def generateDigestMapAux (event : ContentT) :
    List Nat → List (Nat × Bytes) → Except CelErr (List (Nat × Bytes))
  | [], m => .ok m
  | hashAlgo :: rest, m =>
    match event.GenerateDigest hashAlgo with
    | .error e => .error e
    | .ok digest => generateDigestMapAux event rest (updateA m hashAlgo digest)

/-- generateDigestMap: digests of the event under each given algorithm. -/
def generateDigestMap (hashAlgos : List Nat) (event : ContentT) :
    Except CelErr (List (Nat × Bytes)) :=
  generateDigestMapAux event hashAlgos []

/-- The extender loop of AppendEvent.  Besides the Go control flow it also
returns the trace of extender invocations actually made (bank, index,
digest), so theorems can speak about which calls happened. -/
def extendLoop (extender : Nat → Int → Bytes → Except CelErr Unit) (mrIndex : Int) :
    List (Nat × Bytes) → List (Nat × Int × Bytes) × Option CelErr
  | [] => ([], none)
  | (bank, dgst) :: rest =>
    match extender bank mrIndex dgst with
    | .error _ => ([(bank, mrIndex, dgst)], some .extendFailed)
    | .ok _ =>
      let next := extendLoop extender mrIndex rest
      ((bank, mrIndex, dgst) :: next.1, next.2)

/-- eventLog.AppendEvent.  Returns the event log after the call (unchanged
on every error path), the extender-invocation trace, and the error if any.
The record index is `uint8(mrIndex)`, i.e. the given index modulo 256. -/
def eventLog.AppendEvent (c : eventLog) (event : ContentT) (bankAlgos : List Nat)
    (mrIndex : Int) (extender : Nat → Int → Bytes → Except CelErr Unit) :
    eventLog × List (Nat × Int × Bytes) × Option CelErr :=
  if bankAlgos.length = 0 ∨ mrIndex < 0 then (c, [], some .badArgs)
  else if ¬ supportedMRType c.Ty then (c, [], some .unsupportedMRType)
  else
    match generateDigestMap bankAlgos event with
    | .error e => (c, [], some e)
    | .ok digestMap =>
      match extendLoop extender mrIndex digestMap with
      | (tr, some e) => (c, tr, some e)
      | (tr, none) =>
        match event.GetTLV with
        | .error e => (c, tr, some e)
        | .ok eventTlv =>
          ({ Recs := c.Recs ++ [{ RecNum := c.Recs.length,
                                  Index := mrIndex.toNat % 256,
                                  IndexType := c.Ty,
                                  Digests := digestMap,
                                  Content := eventTlv }],
             Ty := c.Ty }, tr, none)

/-! ### Replay -/

/-- register.MRBank as seen by Replay: the bank's hash algorithm (which the
interface may fail to produce) and its registers as (index, digest) pairs. -/
structure MRBank where
  CryptoHashRes : Except CelErr Nat
  MRs : List (Int × Bytes)

/-- The accumulator loop of Replay: walk the records in order, folding each
record's digest for the bank algorithm `A` into the per-index accumulator
(initialized to `sz` zero bytes on first touch). -/
def replayRecs (H1 : Bytes → Bytes) (sz : Nat) (A : Nat) :
    List Record → List (Nat × Bytes) → Except CelErr (List (Nat × Bytes))
  | [], m => .ok m
  | r :: rest, m =>
    let cur := (lookupA m r.Index).getD (List.replicate sz 0)
    match lookupA r.Digests A with
    | none => .error (.noDigest A)
    | some digest => replayRecs H1 sz A rest (updateA m r.Index (H1 (cur ++ digest)))

/-- The register map Replay builds from the bank (later duplicates of an
index overwrite earlier ones, as with a Go map). -/
def buildRegMap (mrs : List (Int × Bytes)) : List (Int × Bytes) :=
  mrs.foldl (fun m p => updateA m p.1 p.2) []

/-- The comparison loop of Replay: for each replayed accumulator, the bank
must contain the index (else MissingRegister); indices whose bank digest
disagrees are collected in order. -/
def collectFailed (registers : List (Int × Bytes)) :
    List (Nat × Bytes) → Except CelErr (List Nat)
  | [] => .ok []
  | (i, d) :: rest =>
    match lookupA registers (Int.ofNat i) with
    | none => .error (.missingRegister i)
    | some bankDigest =>
      match collectFailed registers rest with
      | .error e => .error e
      | .ok f => .ok (if bankDigest = d then f else i :: f)

/-- eventLog.Replay: fold the log's digests per register and compare against
the bank.  `Hfn` gives the hash function for each crypto.Hash id. -/
def eventLog.Replay (Hfn : Nat → Bytes → Bytes) (c : eventLog) (regs : MRBank) :
    Except CelErr Unit :=
  match regs.CryptoHashRes with
  | .error e => .error e
  | .ok cryptoHash =>
    match replayRecs (Hfn cryptoHash) (hashSizeOf cryptoHash) cryptoHash c.Recs [] with
    | .error e => .error e
    | .ok replayed =>
      match collectFailed (buildRegMap regs.MRs) replayed with
      | .error e => .error e
      | .ok failed => if failed = [] then .ok () else .error (.replayMismatch failed)

/-! ### Lemmas about AppendEvent -/

theorem generateDigestMapAux_spec (event : ContentT) (dg : Nat → Bytes) :
    ∀ (algos : List Nat) (m : List (Nat × Bytes)),
      (∀ h ∈ algos, event.GenerateDigest h = .ok (dg h)) →
      algos.Nodup →
      (∀ h ∈ algos, h ∉ m.map Prod.fst) →
      generateDigestMapAux event algos m = .ok (m ++ algos.map fun h => (h, dg h))
  | [], m, _, _, _ => by simp [generateDigestMapAux]
  | a :: rest, m, hdg, hnd, hdisj => by
    have ha : event.GenerateDigest a = .ok (dg a) := hdg a (by simp)
    have ham : a ∉ m.map Prod.fst := hdisj a (by simp)
    rw [List.nodup_cons] at hnd
    have step := generateDigestMapAux_spec event dg rest (m ++ [(a, dg a)])
      (fun h hh => hdg h (by simp [hh]))
      hnd.2
      (by
        intro h hh
        simp only [List.map_append, List.mem_append]
        rintro (hm | hsing)
        · exact hdisj h (by simp [hh]) hm
        · have : h = a := by simpa using hsing
          exact hnd.1 (this ▸ hh))
    simp only [generateDigestMapAux, ha]
    rw [updateA_not_mem_keys m a (dg a) ham, step]
    simp

theorem extendLoop_all_ok (extender : Nat → Int → Bytes → Except CelErr Unit)
    (mrIndex : Int) :
    ∀ entries : List (Nat × Bytes),
      (∀ p ∈ entries, extender p.1 mrIndex p.2 = .ok ()) →
      extendLoop extender mrIndex entries =
        (entries.map fun p => (p.1, mrIndex, p.2), none)
  | [], _ => by simp [extendLoop]
  | (bank, dgst) :: rest, hok => by
    have hb : extender bank mrIndex dgst = .ok () := hok (bank, dgst) (by simp)
    have := extendLoop_all_ok extender mrIndex rest (fun p hp => hok p (by simp [hp]))
    simp [extendLoop, hb, this]

/-- C10: AppendEvent is atomic on the CEL value: whenever it reports an
error — bad arguments, unsupported MR type, digest-generation failure,
extender failure, or content-TLV failure — the record list is exactly as it
was before the call. -/
theorem C10_append_event_atomic (c : eventLog) (event : ContentT)
    (bankAlgos : List Nat) (mrIndex : Int)
    (extender : Nat → Int → Bytes → Except CelErr Unit) (e : CelErr)
    (h : (c.AppendEvent event bankAlgos mrIndex extender).2.2 = some e) :
    (c.AppendEvent event bankAlgos mrIndex extender).1 = c := by
  revert h
  unfold eventLog.AppendEvent
  split
  · intro _; rfl
  · split
    · intro _; rfl
    · split
      · intro _; rfl
      · split
        · intro _; rfl
        · split
          · intro _; rfl
          · intro h; simp at h

/-- A PCR-type CEL with no records. -/
def celEmptyPCR : eventLog := ⟨[], PCRTypeV⟩

/-- A trivial content value for witnesses: empty digests, fixed TLV. -/
def content0 : ContentT := ⟨fun _ => .ok [], .ok ⟨222, []⟩⟩

/-- An extender that always succeeds. -/
def ext0 : Nat → Int → Bytes → Except CelErr Unit := fun _ _ _ => .ok ()

theorem C10_witness :
    (celEmptyPCR.AppendEvent content0 [] 0 ext0).2.2 = some .badArgs ∧
    (celEmptyPCR.AppendEvent content0 [] 0 ext0).1 = celEmptyPCR :=
  ⟨rfl, C10_append_event_atomic celEmptyPCR content0 [] 0 ext0 .badArgs rfl⟩

/-- C8 (amended): for a supported MR type, a non-empty duplicate-free
algorithm list, a non-negative index, and content whose digesting, extending
and TLV construction succeed, AppendEvent invokes the extender once per
algorithm with that algorithm's digest and the given index, and appends
exactly one record whose rec_num is the previous record count, whose index
is the given index reduced modulo 256 (the record field is a single byte),
whose index type is the log's MR type, and whose digest map is the computed
map. -/
theorem C8_append_event_spec (c : eventLog) (event : ContentT)
    (bankAlgos : List Nat) (mrIndex : Int)
    (extender : Nat → Int → Bytes → Except CelErr Unit)
    (dg : Nat → Bytes) (tlv : TLV)
    (hty : supportedMRType c.Ty = true)
    (hne : bankAlgos ≠ [])
    (hnd : bankAlgos.Nodup)
    (hidx : 0 ≤ mrIndex)
    (hdg : ∀ h ∈ bankAlgos, event.GenerateDigest h = .ok (dg h))
    (hext : ∀ h ∈ bankAlgos, extender h mrIndex (dg h) = .ok ())
    (htlv : event.GetTLV = .ok tlv) :
    c.AppendEvent event bankAlgos mrIndex extender =
      ({ Recs := c.Recs ++ [{ RecNum := c.Recs.length,
                              Index := mrIndex.toNat % 256,
                              IndexType := c.Ty,
                              Digests := bankAlgos.map fun h => (h, dg h),
                              Content := tlv }],
         Ty := c.Ty },
       bankAlgos.map fun h => (h, mrIndex, dg h), none) := by
  have hguard : ¬ (bankAlgos.length = 0 ∨ mrIndex < 0) := by
    push_neg
    exact ⟨fun hl => hne (List.length_eq_zero.mp hl), hidx⟩
  have hgen : generateDigestMap bankAlgos event =
      .ok (bankAlgos.map fun h => (h, dg h)) := by
    have := generateDigestMapAux_spec event dg bankAlgos [] hdg hnd (by simp)
    simpa [generateDigestMap] using this
  have hloop : extendLoop extender mrIndex (bankAlgos.map fun h => (h, dg h)) =
      (bankAlgos.map fun h => (h, mrIndex, dg h), none) := by
    rw [extendLoop_all_ok extender mrIndex _ (by
      intro p hp
      obtain ⟨h, hh, rfl⟩ := List.mem_map.mp hp
      exact hext h hh)]
    simp [Function.comp]
  simp [eventLog.AppendEvent, hguard, hty, hgen, hloop, htlv]
  exact ⟨hne, hidx⟩

theorem C8_witness :
    celEmptyPCR.AppendEvent content0 [5] 7 ext0 =
      ({ Recs := [{ RecNum := 0, Index := 7, IndexType := PCRTypeV,
                    Digests := [(5, [])], Content := ⟨222, []⟩ }],
         Ty := PCRTypeV }, [(5, 7, [])], none) := by
  have := C8_append_event_spec celEmptyPCR content0 [5] 7 ext0 (fun _ => [])
    ⟨222, []⟩ rfl (by decide) (by decide) (by decide)
    (by intro h _; rfl) (by intro h _; rfl) rfl
  simpa [celEmptyPCR] using this

/-- C8 counterexample: with measurement register index 256 the appended
record's index field is uint8(256) = 0, not the given index. -/
theorem C8_counterexample :
    ((celEmptyPCR.AppendEvent content0 [5] 256 ext0).1.Recs.map Record.Index
      = [0]) ∧ (256 : Nat) ≠ 0 := by
  constructor
  · rfl
  · decide

/-- C9: DecodeToCEL is total — every byte sequence decodes or yields a
structured parse error, never a panic — and the malformed shapes produce
errors: a truncated TLV, a TLV length field exceeding the remaining bytes, a
first TLV that is not a recnum field, an index TLV with an unsupported type
or a non-1-byte value, and a non-digests TLV where digests are expected. -/
theorem C9_decode_safety :
    (∀ buf : Bytes, (∃ c, DecodeToCEL buf = .ok c) ∨ (∃ e, DecodeToCEL buf = .error e))
    ∧ (∀ buf : Bytes, buf ≠ [] → buf.length < 5 → DecodeToCEL buf = .error .eof)
    ∧ (∀ t : Nat, ∀ rest : Bytes, 4 ≤ rest.length →
        rest.length - 4 < beToNat (rest.take 4) →
        unmarshalFirstTLV (t :: rest) = .error .eof)
    ∧ (∀ tlv : TLV, tlv.Ty ≠ 0 → unmarshalRecNum tlv = .error .notRecnum)
    ∧ (∀ tlv : TLV, tlv.Ty ≠ PCRTypeV → tlv.Ty ≠ CCMRTypeV →
        unmarshalIndex tlv = .error .notIndexType)
    ∧ (∀ tlv : TLV, (tlv.Ty = PCRTypeV ∨ tlv.Ty = CCMRTypeV) → tlv.Value.length ≠ 1 →
        unmarshalIndex tlv = .error .badIndexLength)
    ∧ (∀ tlv : TLV, tlv.Ty ≠ 3 → unmarshalDigests tlv = .error .notDigests) := by
  refine ⟨?_, ?_, ?_, ?_, ?_, ?_, ?_⟩
  · intro buf
    cases h : DecodeToCEL buf with
    | ok c => exact Or.inl ⟨c, rfl⟩
    | error e => exact Or.inr ⟨e, rfl⟩
  · intro buf hne hlen
    match buf, hne with
    | b :: bs, _ =>
      have h4 : bs.length < 4 := by
        simp only [List.length_cons] at hlen
        omega
      have h1 : unmarshalFirstTLV (b :: bs) = .error .eof := by
        simp [unmarshalFirstTLV, h4]
      have h2 : decodeToCELR (b :: bs) = .error .eof := by
        simp [decodeToCELR, h1]
      have h3 : decodeLoop (b :: bs) [] = .error .eof := by
        rw [decodeLoop]
        split
        · rename_i e heq
          rw [h2] at heq
          cases heq
          rfl
        · rename_i r rest heq
          rw [h2] at heq
          cases heq
      simp [DecodeToCEL, h3]
  · intro t rest h4 hover
    have hlt : ¬ rest.length < 4 := by omega
    have h2 : (rest.drop 4).length < beToNat (rest.take 4) := by
      simp only [List.length_drop]
      omega
    simp only [unmarshalFirstTLV, if_neg hlt]
    rw [if_pos h2]
  · intro tlv h
    simp [unmarshalRecNum, h]
  · intro tlv h1 h108
    simp [unmarshalIndex, h1, h108]
  · intro tlv hty hlen
    rcases hty with h | h <;> simp [unmarshalIndex, h, hlen, PCRTypeV, CCMRTypeV]
  · intro tlv h
    simp [unmarshalDigests, h]

theorem C9_witness :
    ([0] : Bytes) ≠ [] ∧ ([0] : Bytes).length < 5 ∧ DecodeToCEL [0] = .error .eof :=
  ⟨by decide, by decide, C9_decode_safety.2.1 [0] (by decide) (by decide)⟩

/-! ### CEL encode/decode round trip -/

/-- Well-formedness of a record as maintained by the Go type system and the
CEL invariants: a uint64 rec_num, a digest map with distinct TPM-supported
algorithms whose digest lengths match, a supported index type, and a content
value that fits the 4-byte TLV length field. -/
def recordWF (r : Record) : Prop :=
  r.RecNum < 2 ^ 64 ∧
  (r.Digests.map Prod.fst).Nodup ∧
  (∀ k ∈ r.Digests.map Prod.fst, k = 3 ∨ k = 5 ∨ k = 6 ∨ k = 7) ∧
  (∀ p ∈ r.Digests, (p.2 : Bytes).length = hashSizeOf p.1) ∧
  (r.IndexType = PCRTypeV ∨ r.IndexType = CCMRTypeV) ∧
  r.Content.Value.length < 2 ^ 32

instance (r : Record) : Decidable (recordWF r) := by
  unfold recordWF
  infer_instance

theorem unmarshalFirstTLV_marshal (t : TLV) (rest : Bytes)
    (hlen : t.Value.length < 2 ^ 32) :
    unmarshalFirstTLV (t.MarshalBinary ++ rest) = .ok (t, rest) := by
  have h4 : (natToBE 4 t.Value.length).length = 4 := natToBE_length 4 _
  have hbe : beToNat (natToBE 4 t.Value.length) = t.Value.length := by
    rw [beToNat_natToBE]
    exact Nat.mod_eq_of_lt (lt_of_lt_of_eq hlen (by norm_num))
  simp only [TLV.MarshalBinary, List.cons_append, List.append_assoc]
  rw [unmarshalFirstTLV]
  rw [List.take_left' h4, List.drop_left' h4, hbe]
  have hnot4 : ¬ (natToBE 4 t.Value.length ++ (t.Value ++ rest)).length < 4 := by
    simp [h4]
  rw [if_neg hnot4]
  have hnotv : ¬ (t.Value ++ rest).length < t.Value.length := by
    simp
  rw [if_neg hnotv, List.take_left, List.drop_left]

theorem unmarshalRecNum_create (rn : Nat) (h : rn < 2 ^ 64) :
    unmarshalRecNum (createRecNumField rn) = .ok rn := by
  have h8 : (natToBE 8 rn).length = 8 := natToBE_length 8 rn
  have hbe : beToNat (natToBE 8 rn) = rn := by
    rw [beToNat_natToBE]
    exact Nat.mod_eq_of_lt (lt_of_lt_of_eq h (by norm_num))
  simp [unmarshalRecNum, createRecNumField, h8, hbe]

theorem unmarshalIndex_create (ity idx : Nat)
    (h : ity = PCRTypeV ∨ ity = CCMRTypeV) :
    unmarshalIndex (createIndexField ity idx) = .ok (ity, idx) := by
  rcases h with h | h <;> simp [unmarshalIndex, createIndexField, h, PCRTypeV, CCMRTypeV]

theorem hashSizeOf_le (k : Nat) : hashSizeOf k ≤ 64 := by
  unfold hashSizeOf
  split <;> try omega
  split <;> try omega
  split <;> try omega
  split <;> omega

theorem digestField_roundtrip :
    ∀ (dm m : List (Nat × Bytes)),
      (dm.map Prod.fst).Nodup →
      (∀ k ∈ dm.map Prod.fst, k = 3 ∨ k = 5 ∨ k = 6 ∨ k = 7) →
      (∀ p ∈ dm, (p.2 : Bytes).length = hashSizeOf p.1) →
      (∀ k ∈ dm.map Prod.fst, k ∉ m.map Prod.fst) →
      ∃ bytes, createDigestFieldLoop dm = .ok bytes ∧
        bytes.length ≤ 69 * dm.length ∧
        digestsLoop bytes m = .ok (m ++ dm)
  | [], m, _, _, _, _ => ⟨[], rfl, Nat.zero_le _, by rw [digestsLoop]; simp⟩
  | (k, v) :: rest, m, hnd, hsup, hlen, hdisj => by
    rw [List.map_cons, List.nodup_cons] at hnd
    have hk : k = 3 ∨ k = 5 ∨ k = 6 ∨ k = 7 := hsup k (by simp)
    have hv : v.length = hashSizeOf k := hlen (k, v) (by simp)
    have hvsmall : v.length < 2 ^ 32 := by
      have := hashSizeOf_le k
      omega
    obtain ⟨ak, hka, hak⟩ : ∃ ak, hashToAlgorithm k = .ok ak ∧
        algorithmToHash ak = .ok k := by
      rcases hk with h | h | h | h <;> subst h <;>
        exact ⟨_, rfl, rfl⟩
    have hkm : k ∉ m.map Prod.fst := hdisj k (by simp)
    obtain ⟨restBytes, hrb, hrlen, hrloop⟩ :=
      digestField_roundtrip rest (m ++ [(k, v)])
        hnd.2
        (fun a ha => hsup a (by simp [ha]))
        (fun p hp => hlen p (by simp [hp]))
        (by
          intro a ha
          simp only [List.map_append, List.mem_append]
          rintro (hma | hsing)
          · exact hdisj a (by simp [ha]) hma
          · have : a = k := by simpa using hsing
            exact hnd.1 (this ▸ ha))
    have hnotlen : ¬ v.length ≠ hashSizeOf k := by simp [hv]
    refine ⟨TLV.MarshalBinary ⟨ak, v⟩ ++ restBytes, ?_, ?_, ?_⟩
    · simp only [createDigestFieldLoop]
      rw [if_neg hnotlen, hka, hrb]
    · have hv2 : v.length ≤ 64 := by rw [hv]; exact hashSizeOf_le k
      simp only [List.length_append, TLV.MarshalBinary, List.length_cons,
        natToBE_length]
      omega
    · have hfirst : unmarshalFirstTLV (TLV.MarshalBinary ⟨ak, v⟩ ++ restBytes) =
          .ok (⟨ak, v⟩, restBytes) := unmarshalFirstTLV_marshal ⟨ak, v⟩ restBytes hvsmall
      have hshape : TLV.MarshalBinary ⟨ak, v⟩ ++ restBytes =
          ak :: (natToBE 4 v.length ++ v ++ restBytes) := by
        simp [TLV.MarshalBinary]
      rw [hshape] at hfirst ⊢
      rw [digestsLoop]
      split
      · rename_i e heq
        rw [hfirst] at heq
        cases heq
      · rename_i dtlv rest2 heq
        rw [hfirst] at heq
        injection heq with heq2
        rw [Prod.mk.injEq] at heq2
        obtain ⟨hdt, hrest2⟩ := heq2
        subst hdt
        subst hrest2
        simp only [hak]
        rw [updateA_not_mem_keys m k v hkm]
        rw [hrloop]
        simp

theorem length_le_four_of_nodup_subset (l : List Nat)
    (hnd : l.Nodup) (hsub : ∀ k ∈ l, k = 3 ∨ k = 5 ∨ k = 6 ∨ k = 7) :
    l.length ≤ 4 := by
  have hsub2 : l ⊆ [3, 5, 6, 7] := by
    intro k hk
    rcases hsub k hk with h | h | h | h <;> simp [h]
  have := (List.subperm_of_subset hnd hsub2).length_le
  simpa using this

theorem decodeToCELR_roundtrip (r : Record) (hwf : recordWF r) :
    ∃ bytes, r.EncodeCELR = .ok bytes ∧ bytes ≠ [] ∧
      ∀ rest, decodeToCELR (bytes ++ rest) = .ok (r, rest) := by
  obtain ⟨hrn, hnd, hsup, hlen, hity, hcontent⟩ := hwf
  obtain ⟨dBytes, hdb, hdlen, hdloop⟩ :=
    digestField_roundtrip r.Digests [] hnd hsup hlen (by simp)
  have hdmlen : r.Digests.length ≤ 4 := by
    have := length_le_four_of_nodup_subset (r.Digests.map Prod.fst)
      hnd hsup
    simpa using this
  have hdsmall : dBytes.length < 2 ^ 32 := by
    have : dBytes.length ≤ 69 * 4 := le_trans hdlen (by
      have := Nat.mul_le_mul_left 69 hdmlen
      simpa using this)
    omega
  have henc : r.EncodeCELR = .ok
      ((createRecNumField r.RecNum).MarshalBinary ++
       (createIndexField r.IndexType r.Index).MarshalBinary ++
       TLV.MarshalBinary ⟨3, dBytes⟩ ++ r.Content.MarshalBinary) := by
    simp only [Record.EncodeCELR, createDigestField, hdb]
  refine ⟨_, henc, by simp [TLV.MarshalBinary, createRecNumField], ?_⟩
  intro rest
  have h1 : unmarshalFirstTLV ((createRecNumField r.RecNum).MarshalBinary ++
      ((createIndexField r.IndexType r.Index).MarshalBinary ++
       (TLV.MarshalBinary ⟨3, dBytes⟩ ++ (r.Content.MarshalBinary ++ rest)))) =
      .ok (createRecNumField r.RecNum,
        (createIndexField r.IndexType r.Index).MarshalBinary ++
        (TLV.MarshalBinary ⟨3, dBytes⟩ ++ (r.Content.MarshalBinary ++ rest))) :=
    unmarshalFirstTLV_marshal _ _ (by simp [createRecNumField, natToBE_length])
  have h2 : unmarshalFirstTLV ((createIndexField r.IndexType r.Index).MarshalBinary ++
      (TLV.MarshalBinary ⟨3, dBytes⟩ ++ (r.Content.MarshalBinary ++ rest))) =
      .ok (createIndexField r.IndexType r.Index,
        TLV.MarshalBinary ⟨3, dBytes⟩ ++ (r.Content.MarshalBinary ++ rest)) :=
    unmarshalFirstTLV_marshal _ _ (by simp [createIndexField])
  have h3 : unmarshalFirstTLV (TLV.MarshalBinary ⟨3, dBytes⟩ ++
      (r.Content.MarshalBinary ++ rest)) =
      .ok (⟨3, dBytes⟩, r.Content.MarshalBinary ++ rest) :=
    unmarshalFirstTLV_marshal _ _ hdsmall
  have h4 : unmarshalFirstTLV (r.Content.MarshalBinary ++ rest) =
      .ok (r.Content, rest) :=
    unmarshalFirstTLV_marshal _ _ hcontent
  have hdig : unmarshalDigests ⟨3, dBytes⟩ = .ok r.Digests := by
    simp only [unmarshalDigests]
    rw [if_neg (by simp)]
    simpa using hdloop
  simp only [List.append_assoc]
  simp only [decodeToCELR, h1, unmarshalRecNum_create r.RecNum hrn, h2,
    unmarshalIndex_create r.IndexType r.Index hity, h3, hdig, h4]

theorem decodeLoop_encodeRecs :
    ∀ (recs : List Record) (acc : List Record),
      (∀ r ∈ recs, recordWF r) →
      ∃ bytes, encodeRecs recs = .ok bytes ∧ decodeLoop bytes acc = .ok (acc ++ recs)
  | [], acc, _ => ⟨[], rfl, by rw [decodeLoop]; simp⟩
  | r :: recs, acc, hwf => by
    obtain ⟨bR, hbR, hbRne, hdecR⟩ := decodeToCELR_roundtrip r (hwf r (by simp))
    obtain ⟨bRest, hbRest, hdecRest⟩ :=
      decodeLoop_encodeRecs recs (acc ++ [r]) (fun x hx => hwf x (by simp [hx]))
    refine ⟨bR ++ bRest, ?_, ?_⟩
    · simp only [encodeRecs, hbR, hbRest]
    · obtain ⟨b, bs, hcons⟩ := List.exists_cons_of_ne_nil hbRne
      rw [hcons] at hdecR ⊢
      rw [show (b :: bs) ++ bRest = b :: (bs ++ bRest) by simp]
      rw [decodeLoop]
      split
      · rename_i e heq
        rw [show b :: (bs ++ bRest) = (b :: bs) ++ bRest by simp, hdecR bRest] at heq
        cases heq
      · rename_i r2 rest2 heq
        rw [show b :: (bs ++ bRest) = (b :: bs) ++ bRest by simp, hdecR bRest] at heq
        injection heq with heq2
        rw [Prod.mk.injEq] at heq2
        obtain ⟨hr2, hrest2⟩ := heq2
        subst hr2
        subst hrest2
        rw [hdecRest]
        simp

theorem checkUniform_ok (z : Nat) (hz : supportedMRType z = true) :
    ∀ recs : List Record, (∀ r ∈ recs, r.IndexType = z) →
      checkUniform z recs = .ok ()
  | [], _ => rfl
  | r :: rest, hall => by
    have hr : r.IndexType = z := hall r (by simp)
    have hsup : supportedMRType r.IndexType = true := by rw [hr]; exact hz
    rw [checkUniform, if_neg (by simp [hsup]), if_neg (by simp [hr])]
    exact checkUniform_ok z hz rest (fun x hx => hall x (by simp [hx]))

/-- C2 (amended): for every type-checking CEL log with at least two records
— supported uniform MR types, duplicate-free TPM-supported digest
algorithms with matching digest lengths, uint64 rec_nums, and content TLVs
that fit the 4-byte length field — EncodeCEL succeeds and DecodeToCEL
returns the original log, record for record and with the same MR type.
(With zero or one record the records still round-trip but the decoded MR
type is the zero value 0, see the counterexample.) -/
theorem C2_encode_decode_roundtrip (c : eventLog)
    (hlen : 2 ≤ c.Recs.length)
    (hty : supportedMRType c.Ty = true)
    (hall : ∀ r ∈ c.Recs, r.IndexType = c.Ty)
    (hwf : ∀ r ∈ c.Recs, recordWF r) :
    ∃ bytes, c.EncodeCEL = .ok bytes ∧ DecodeToCEL bytes = .ok c := by
  obtain ⟨recs, ty⟩ := c
  dsimp only at hlen hty hall hwf ⊢
  rcases recs with _ | ⟨r0, _ | ⟨r1, rest⟩⟩
  · simp at hlen
  · simp at hlen
  · obtain ⟨bytes, henc, hdec⟩ :=
      decodeLoop_encodeRecs (r0 :: r1 :: rest) [] hwf
    refine ⟨bytes, henc, ?_⟩
    rw [DecodeToCEL, hdec]
    have h0 : r0.IndexType = ty := hall r0 (by simp)
    have hcheck : checkUniform ty (r0 :: r1 :: rest) = .ok () :=
      checkUniform_ok ty hty _ hall
    simp only [List.nil_append, h0, hcheck]

/-- A well-formed single-record PCR-type CEL. -/
def celSingle : eventLog :=
  ⟨[⟨0, 0, PCRTypeV, [], ⟨222, []⟩⟩], PCRTypeV⟩

/-- The TLV encoding of celSingle. -/
def celSingleBytes : Bytes :=
  [0, 0, 0, 0, 8, 0, 0, 0, 0, 0, 0, 0, 0,
   1, 0, 0, 0, 1, 0,
   3, 0, 0, 0, 0,
   222, 0, 0, 0, 0]

/-- C2 counterexample: a single-record PCR log encodes and decodes with all
records intact but MR type 0 (the `len(recs) > 1` guard in DecodeToCEL skips
the type assignment), so decode∘encode is not the identity on it. -/
theorem C2_counterexample :
    celSingle.EncodeCEL = .ok celSingleBytes ∧
    DecodeToCEL celSingleBytes = .ok ⟨celSingle.Recs, 0⟩ ∧
    eventLog.mk celSingle.Recs 0 ≠ celSingle := by
  have hwf : recordWF ⟨0, 0, PCRTypeV, [], ⟨222, []⟩⟩ := by decide
  obtain ⟨bytes, henc, hne, hdec⟩ := decodeToCELR_roundtrip _ hwf
  have hbytes : bytes = celSingleBytes := by
    have hcomp : Record.EncodeCELR ⟨0, 0, PCRTypeV, [], ⟨222, []⟩⟩ = .ok celSingleBytes := rfl
    rw [hcomp] at henc
    injection henc with h
    exact h.symm
  subst hbytes
  refine ⟨?_, ?_, by decide⟩
  · simp only [eventLog.EncodeCEL, celSingle, encodeRecs, henc]
    simp
  · have hstep := hdec []
    rw [List.append_nil] at hstep
    have hloop : decodeLoop celSingleBytes [] =
        .ok [(⟨0, 0, PCRTypeV, [], ⟨222, []⟩⟩ : Record)] := by
      rw [show celSingleBytes = 0 :: celSingleBytes.tail by rfl]
      rw [decodeLoop]
      split
      · rename_i e heq
        rw [show (0 : Nat) :: celSingleBytes.tail = celSingleBytes by rfl, hstep] at heq
        cases heq
      · rename_i r2 rest2 heq
        rw [show (0 : Nat) :: celSingleBytes.tail = celSingleBytes by rfl, hstep] at heq
        injection heq with heq2
        rw [Prod.mk.injEq] at heq2
        obtain ⟨hr2, hrest2⟩ := heq2
        subst hr2
        subst hrest2
        rw [decodeLoop]
        rfl
    rw [DecodeToCEL, hloop]
    rfl

/-- A well-formed two-record PCR-type CEL for the round-trip witness. -/
def celDouble : eventLog :=
  ⟨[⟨0, 0, PCRTypeV, [], ⟨222, []⟩⟩, ⟨1, 2, PCRTypeV, [], ⟨222, [9]⟩⟩], PCRTypeV⟩

theorem C2_witness :
    ∃ bytes, celDouble.EncodeCEL = .ok bytes ∧ DecodeToCEL bytes = .ok celDouble :=
  C2_encode_decode_roundtrip celDouble (by decide) (by decide)
    (by decide) (by decide)

/-! ### Replay correctness -/

/-- The digests the log holds for algorithm `A` at register index `i`, in
record order (the reference fold of the spec). -/
def digestsAt (A i : Nat) (recs : List Record) : List Bytes :=
  recs.filterMap fun r => if r.Index = i then lookupA r.Digests A else none

/-- The extend fold of the spec: `acc = H(acc ∥ digest)` over the digests. -/
def foldAcc (H1 : Bytes → Bytes) (v : Bytes) (ds : List Bytes) : Bytes :=
  ds.foldl (fun acc d => H1 (acc ++ d)) v

theorem replayRecs_spec (H1 : Bytes → Bytes) (sz A : Nat) :
    ∀ (recs : List Record) (m : List (Nat × Bytes)),
      (∀ r ∈ recs, (lookupA r.Digests A).isSome) →
      ∃ m', replayRecs H1 sz A recs m = .ok m' ∧
        ∀ i, lookupA m' i =
          match lookupA m i with
          | some v => some (foldAcc H1 v (digestsAt A i recs))
          | none =>
            if i ∈ recs.map Record.Index
            then some (foldAcc H1 (List.replicate sz 0) (digestsAt A i recs))
            else none
  | [], m, _ => by
    refine ⟨m, rfl, ?_⟩
    intro i
    cases h : lookupA m i <;> simp [digestsAt, foldAcc, h]
  | r :: rest, m, hd => by
    obtain ⟨d, hdig⟩ := Option.isSome_iff_exists.mp (hd r (by simp))
    obtain ⟨m', hm', hlook⟩ := replayRecs_spec H1 sz A rest
      (updateA m r.Index (H1 ((lookupA m r.Index).getD (List.replicate sz 0) ++ d)))
      (fun x hx => hd x (by simp [hx]))
    refine ⟨m', ?_, ?_⟩
    · simp only [replayRecs, hdig]
      exact hm'
    · intro i
      have hstep := hlook i
      rw [lookupA_updateA] at hstep
      by_cases hi : i = r.Index
      · subst hi
        rw [if_pos rfl] at hstep
        have hds : digestsAt A r.Index (r :: rest) = d :: digestsAt A r.Index rest := by
          simp [digestsAt, List.filterMap_cons, hdig]
        have hmm : r.Index ∈ (r :: rest).map Record.Index := by
          simp
        rw [hstep, hds, if_pos hmm]
        cases hm : lookupA m r.Index with
        | some v =>
          simp only [hm, Option.getD_some, foldAcc, List.foldl_cons]
        | none =>
          simp only [hm, Option.getD_none, foldAcc, List.foldl_cons]
      · have hne2 : ¬ r.Index = i := fun hh => hi hh.symm
        rw [if_neg hi] at hstep
        have hds : digestsAt A i (r :: rest) = digestsAt A i rest := by
          simp [digestsAt, List.filterMap_cons, hne2]
        rw [hstep, hds]
        cases hm : lookupA m i with
        | some v => rfl
        | none => simp [List.mem_cons, hi]

theorem replayRecs_nodup (H1 : Bytes → Bytes) (sz A : Nat) :
    ∀ (recs : List Record) (m m' : List (Nat × Bytes)),
      replayRecs H1 sz A recs m = .ok m' →
      (m.map Prod.fst).Nodup → (m'.map Prod.fst).Nodup
  | [], m, m', h, hnd => by
    simp only [replayRecs] at h
    injection h with h
    exact h ▸ hnd
  | r :: rest, m, m', h, hnd => by
    simp only [replayRecs] at h
    cases hdig : lookupA r.Digests A with
    | none => rw [hdig] at h; cases h
    | some d =>
      rw [hdig] at h
      exact replayRecs_nodup H1 sz A rest _ m' h
        (updateA_nodup_keys m r.Index _ hnd)

theorem collectFailed_ok_iff (registers : List (Int × Bytes)) :
    ∀ (m : List (Nat × Bytes)) (f : List Nat),
      collectFailed registers m = .ok f →
      (∀ p ∈ m, (lookupA registers (Int.ofNat p.1)).isSome) ∧
      (∀ i, i ∈ f ↔ ∃ d, (i, d) ∈ m ∧ lookupA registers (Int.ofNat i) ≠ some d)
  | [], f, h => by
    simp only [collectFailed] at h
    injection h with h
    subst h
    exact ⟨by simp, by simp⟩
  | (j, d) :: rest, f, h => by
    simp only [collectFailed] at h
    cases hbd : lookupA registers (Int.ofNat j) with
    | none => rw [hbd] at h; cases h
    | some bd =>
      rw [hbd] at h
      cases hcf : collectFailed registers rest with
      | error e => rw [hcf] at h; cases h
      | ok f0 =>
        rw [hcf] at h
        injection h with h
        subst h
        obtain ⟨hpres, hiff⟩ := collectFailed_ok_iff registers rest f0 hcf
        refine ⟨?_, ?_⟩
        · rintro ⟨i, d'⟩ hp
          rcases List.mem_cons.mp hp with heq | htail
          · cases heq
            show (lookupA registers (Int.ofNat j)).isSome = true
            rw [hbd]
            rfl
          · exact hpres _ htail
        · intro i
          by_cases hbdd : bd = d
          · rw [if_pos hbdd]
            rw [hiff i]
            constructor
            · rintro ⟨d', hm, hne⟩
              exact ⟨d', List.mem_cons_of_mem _ hm, hne⟩
            · rintro ⟨d', hm, hne⟩
              rcases List.mem_cons.mp hm with heq | htail
              · cases heq
                rw [hbdd] at hbd
                exact (hne hbd).elim
              · exact ⟨d', htail, hne⟩
          · rw [if_neg hbdd]
            constructor
            · intro hif
              rcases List.mem_cons.mp hif with heq | htail
              · subst heq
                exact ⟨d, by simp, by
                  rw [hbd]
                  intro hc
                  injection hc with hc
                  exact hbdd hc⟩
              · obtain ⟨d', hm, hne⟩ := (hiff i).mp htail
                exact ⟨d', List.mem_cons_of_mem _ hm, hne⟩
            · rintro ⟨d', hm, hne⟩
              rcases List.mem_cons.mp hm with heq | htail
              · cases heq
                exact List.mem_cons_self _ _
              · exact List.mem_cons_of_mem _ ((hiff i).mpr ⟨d', htail, hne⟩)

theorem collectFailed_total (registers : List (Int × Bytes)) :
    ∀ m : List (Nat × Bytes),
      (∀ p ∈ m, (lookupA registers (Int.ofNat p.1)).isSome) →
      ∃ f, collectFailed registers m = .ok f
  | [], _ => ⟨[], rfl⟩
  | (j, d) :: rest, hpres => by
    obtain ⟨bd, hbd⟩ := Option.isSome_iff_exists.mp (hpres (j, d) (by simp))
    obtain ⟨f0, hf0⟩ := collectFailed_total registers rest
      (fun p hp => hpres p (by simp [hp]))
    exact ⟨if bd = d then f0 else j :: f0, by
      simp only [collectFailed, hbd, hf0]⟩

theorem collectFailed_err (registers : List (Int × Bytes)) :
    ∀ m : List (Nat × Bytes),
      (∃ p ∈ m, lookupA registers (Int.ofNat p.1) = none) →
      ∃ j d, (j, d) ∈ m ∧ lookupA registers (Int.ofNat j) = none ∧
        collectFailed registers m = .error (.missingRegister j)
  | [], hex => by
    obtain ⟨p, hp, _⟩ := hex
    cases hp
  | (j0, d0) :: rest, hex => by
    cases hbd : lookupA registers (Int.ofNat j0) with
    | none =>
      exact ⟨j0, d0, by simp, hbd, by simp only [collectFailed, hbd]⟩
    | some bd =>
      have hex2 : ∃ p ∈ rest, lookupA registers (Int.ofNat p.1) = none := by
        obtain ⟨p, hp, hnone⟩ := hex
        rcases List.mem_cons.mp hp with heq | htail
        · subst heq
          rw [hbd] at hnone
          cases hnone
        · exact ⟨p, htail, hnone⟩
      obtain ⟨j, d, hm, hnone, herr⟩ := collectFailed_err registers rest hex2
      exact ⟨j, d, List.mem_cons_of_mem _ hm, hnone, by
        simp only [collectFailed, hbd, herr]⟩

/-- C1: Replay folds, per register index referenced by the log, the
accumulator `acc = H(acc ∥ digest)` from `hash_size(A)` zero bytes over the
records in order; it succeeds iff every referenced index appears in the bank
with exactly the folded digest; a referenced index missing from the bank
gives a missing-register error; with all indices present, any disagreement
gives a replay-mismatch error listing exactly the failing indices; unreferenced
bank entries are ignored (supersets succeed) and the empty log succeeds. -/
theorem C1_replay_spec (Hfn : Nat → Bytes → Bytes) (c : eventLog)
    (bank : MRBank) (A : Nat)
    (hA : bank.CryptoHashRes = .ok A)
    (hd : ∀ r ∈ c.Recs, (lookupA r.Digests A).isSome) :
    (c.Replay Hfn bank = .ok () ↔
      ∀ i ∈ c.Recs.map Record.Index,
        lookupA (buildRegMap bank.MRs) (Int.ofNat i) =
          some (foldAcc (Hfn A) (List.replicate (hashSizeOf A) 0)
            (digestsAt A i c.Recs)))
    ∧ ((∃ i ∈ c.Recs.map Record.Index,
          lookupA (buildRegMap bank.MRs) (Int.ofNat i) = none) →
        ∃ j, j ∈ c.Recs.map Record.Index ∧
          lookupA (buildRegMap bank.MRs) (Int.ofNat j) = none ∧
          c.Replay Hfn bank = .error (.missingRegister j))
    ∧ ((∀ i ∈ c.Recs.map Record.Index,
          (lookupA (buildRegMap bank.MRs) (Int.ofNat i)).isSome) →
       (∃ i ∈ c.Recs.map Record.Index,
          lookupA (buildRegMap bank.MRs) (Int.ofNat i) ≠
            some (foldAcc (Hfn A) (List.replicate (hashSizeOf A) 0)
              (digestsAt A i c.Recs))) →
        ∃ l, c.Replay Hfn bank = .error (.replayMismatch l) ∧
          ∀ i, i ∈ l ↔ i ∈ c.Recs.map Record.Index ∧
            lookupA (buildRegMap bank.MRs) (Int.ofNat i) ≠
              some (foldAcc (Hfn A) (List.replicate (hashSizeOf A) 0)
                (digestsAt A i c.Recs)))
    ∧ (c.Recs = [] → c.Replay Hfn bank = .ok ()) := by
  obtain ⟨m', hm', hlook⟩ :=
    replayRecs_spec (Hfn A) (hashSizeOf A) A c.Recs [] hd
  have hnd : (m'.map Prod.fst).Nodup :=
    replayRecs_nodup (Hfn A) (hashSizeOf A) A c.Recs [] m' hm' (by simp)
  have hlook2 : ∀ i, lookupA m' i =
      if i ∈ c.Recs.map Record.Index
      then some (foldAcc (Hfn A) (List.replicate (hashSizeOf A) 0)
        (digestsAt A i c.Recs))
      else none := by
    intro i
    have := hlook i
    simpa [lookupA] using this
  have hmem : ∀ i d, (i, d) ∈ m' ↔
      i ∈ c.Recs.map Record.Index ∧
      d = foldAcc (Hfn A) (List.replicate (hashSizeOf A) 0) (digestsAt A i c.Recs) := by
    intro i d
    constructor
    · intro hm
      have hl := lookupA_eq_some_of_mem m' i d hnd hm
      rw [hlook2 i] at hl
      by_cases hi : i ∈ c.Recs.map Record.Index
      · rw [if_pos hi] at hl
        injection hl with hl
        exact ⟨hi, hl.symm⟩
      · rw [if_neg hi] at hl
        cases hl
    · rintro ⟨hi, rfl⟩
      exact mem_of_lookupA_eq_some m' i _ (by rw [hlook2 i, if_pos hi])
  have hrep : c.Replay Hfn bank =
      match collectFailed (buildRegMap bank.MRs) m' with
      | .error e => .error e
      | .ok failed =>
        if failed = [] then .ok () else .error (.replayMismatch failed) := by
    simp only [eventLog.Replay, hA, hm']
  refine ⟨?_, ?_, ?_, ?_⟩
  · rw [hrep]
    constructor
    · intro hok i hi
      cases hcf : collectFailed (buildRegMap bank.MRs) m' with
      | error e => simp [hcf] at hok
      | ok f =>
        simp only [hcf] at hok
        by_cases hf : f = []
        · obtain ⟨hpres, hiff⟩ := collectFailed_ok_iff _ m' f hcf
          by_contra hne
          have hmemf : i ∈ f := (hiff i).mpr ⟨_, (hmem i _).mpr ⟨hi, rfl⟩, hne⟩
          rw [hf] at hmemf
          cases hmemf
        · simp [hf] at hok
    · intro hall2
      have hpres : ∀ p ∈ m', (lookupA (buildRegMap bank.MRs) (Int.ofNat p.1)).isSome := by
        rintro ⟨i, d⟩ hp
        obtain ⟨hi, rfl⟩ := (hmem i d).mp hp
        rw [hall2 i hi]
        rfl
      obtain ⟨f, hcf⟩ := collectFailed_total _ m' hpres
      obtain ⟨_, hiff⟩ := collectFailed_ok_iff _ m' f hcf
      have hf : f = [] := by
        by_contra hne
        obtain ⟨i, hi⟩ := List.exists_mem_of_ne_nil f hne
        obtain ⟨d, hmem2, hneq⟩ := (hiff i).mp hi
        obtain ⟨hidx, rfl⟩ := (hmem i d).mp hmem2
        exact hneq (hall2 i hidx)
      simp [hcf, hf]
  · rintro ⟨i, hi, hnone⟩
    have hex : ∃ p ∈ m', lookupA (buildRegMap bank.MRs) (Int.ofNat p.1) = none :=
      ⟨(i, _), (hmem i _).mpr ⟨hi, rfl⟩, hnone⟩
    obtain ⟨j, d, hjm, hjnone, herr⟩ := collectFailed_err _ m' hex
    obtain ⟨hjidx, rfl⟩ := (hmem j d).mp hjm
    exact ⟨j, hjidx, hjnone, by rw [hrep, herr]⟩
  · intro hallpres hex
    have hpres : ∀ p ∈ m', (lookupA (buildRegMap bank.MRs) (Int.ofNat p.1)).isSome := by
      rintro ⟨i, d⟩ hp
      obtain ⟨hi, rfl⟩ := (hmem i d).mp hp
      exact hallpres i hi
    obtain ⟨f, hcf⟩ := collectFailed_total _ m' hpres
    obtain ⟨_, hiff⟩ := collectFailed_ok_iff _ m' f hcf
    have hfne : ¬ f = [] := by
      obtain ⟨i, hi, hne⟩ := hex
      intro hf
      have : i ∈ f := (hiff i).mpr ⟨_, (hmem i _).mpr ⟨hi, rfl⟩, hne⟩
      rw [hf] at this
      cases this
    refine ⟨f, by rw [hrep]; simp [hcf, hfne], ?_⟩
    intro i
    constructor
    · intro hif
      obtain ⟨d, hmem2, hneq⟩ := (hiff i).mp hif
      obtain ⟨hidx, rfl⟩ := (hmem i d).mp hmem2
      exact ⟨hidx, hneq⟩
    · rintro ⟨hidx, hneq⟩
      exact (hiff i).mpr ⟨_, (hmem i _).mpr ⟨hidx, rfl⟩, hneq⟩
  · intro hempty
    rw [hrep]
    have hm'empty : m' = [] := by
      rw [hempty] at hm'
      simp only [replayRecs] at hm'
      injection hm' with h
      exact h.symm
    rw [hm'empty]
    rfl

/-- A bank whose hash is SHA-256 (crypto.Hash id 5) with no registers. -/
def bank0 : MRBank := ⟨.ok 5, []⟩

theorem C1_witness :
    bank0.CryptoHashRes = .ok 5 ∧
    eventLog.Replay (fun _ l => l) celEmptyPCR bank0 = .ok () := by
  refine ⟨rfl, ?_⟩
  exact (C1_replay_spec (fun _ l => l) celEmptyPCR bank0 5 rfl
    (by intro r hr; cases hr)).2.2.2 rfl

/-! ## Extraction (package extract)

The tcg.Event type, its constants and the verification helpers
(`verifyDataDigest`, `verifyNullTerminatedDataDigest`, `DigestEquals`,
`tcg.UntrustedParseEventType`, `registerConfig`) live outside src/ and are
modelled from the spec; everything else follows extract/extract.go,
extract/pcr.go and the RTMR GRUB extractor. -/

/-- Modelled from the spec: a parsed TCG event as the extractor sees it
(spec §3) — register index, untrusted type, raw payload, replayed digest,
ordinal, and the digest-verified mark set by the digest verifier. -/
structure Event where
  Index : Nat
  Ty : Nat
  Data : Bytes
  Digest : Bytes
  Num : Nat
  Verified : Bool
  deriving DecidableEq, Repr

/-- EV_SEPARATOR. -/
def Separator : Nat := 4
/-- EV_EVENT_TAG. -/
def EventTag : Nat := 6
/-- EV_S_CRTM_VERSION. -/
def SCRTMVersion : Nat := 8
/-- EV_IPL. -/
def Ipl : Nat := 13
/-- EV_NONHOST_INFO. -/
def NonhostInfo : Nat := 17
/-- EV_EFI_VARIABLE_DRIVER_CONFIG. -/
def EFIVariableDriverConfig : Nat := 0x80000001
/-- EV_EFI_BOOT_SERVICES_APPLICATION. -/
def EFIBootServicesApplication : Nat := 0x80000003
/-- EV_EFI_BOOT_SERVICES_DRIVER. -/
def EFIBootServicesDriver : Nat := 0x80000004
/-- EV_EFI_RUNTIME_SERVICES_DRIVER. -/
def EFIRuntimeServicesDriver : Nat := 0x80000005
/-- EV_EFI_ACTION. -/
def EFIAction : Nat := 0x80000007
/-- EV_EFI_VARIABLE_AUTHORITY. -/
def EFIVariableAuthority : Nat := 0x800000E0

/-- Structured error kinds for the extract package. -/
inductive ExtractErr : Type
  | separatorSpoof (idx ty : Nat)
  | unverifiedSeparator (idx : Nat)
  | invalidSeparatorData (idx : Nat)
  | unrecognizedEventType
  | duplicateSeparator
  | invalidDriverSeparatorData
  | invalidDriverSeparatorDigest
  | imageLoadFailed
  | callingEfiAppWrongType
  | unverifiedCallingEfiApp
  | duplicateCallingEfiApp
  | callingEfiAppAfterSeparator
  | appBeforeCallingEfiApp
  | ebsWrongType
  | unverifiedEbs
  | invalidEventType (idx : Nat)
  | invalidGrubData
  | invalidGrubDigest
  | noGrubMeasurements
  | multipleKernelCmdline
  | hashUnsupported
  | digestMismatch
  | platformFailed
  | sbFailed
  deriving DecidableEq, Repr

/-- bytes.Equal membership in a set of byte strings. -/
def containsB (set : List Bytes) (value : Bytes) : Bool :=
  set.any (fun s => value = s)

/-- The precomputed separator data and digests. -/
structure separatorInfo where
  separatorData : List Bytes
  separatorDigests : List Bytes

/-- getSeparatorInfo.  The Go code reuses one hasher without Reset between
the two values, so the second precomputed digest is the hash of the
concatenation 00000000 ∥ FFFFFFFF, not of FFFFFFFF alone. -/
def getSeparatorInfo (H1 : Bytes → Bytes) : separatorInfo :=
  { separatorData := [[0, 0, 0, 0], [255, 255, 255, 255]],
    separatorDigests := [H1 [0, 0, 0, 0],
                         H1 ([0, 0, 0, 0] ++ [255, 255, 255, 255])] }

/-- checkIfValidSeparator: skip events that neither claim nor resemble a
separator; reject type-spoofed, unverified, or bad-payload separators;
accept the rest. -/
def checkIfValidSeparator (event : Event) (sepInfo : separatorInfo) :
    Except ExtractErr Bool :=
  if event.Ty ≠ Separator ∧ ¬ containsB sepInfo.separatorDigests event.Digest
  then .ok false
  else if event.Ty ≠ Separator then .error (.separatorSpoof event.Index event.Ty)
  else if ¬ event.Verified then .error (.unverifiedSeparator event.Index)
  else if ¬ containsB sepInfo.separatorData event.Data
  then .error (.invalidSeparatorData event.Index)
  else .ok true

/-! ### GRUB extraction -/

/-- "kernel_cmdline: ". -/
def newGrubKernelCmdlineP : Bytes :=
  [107, 101, 114, 110, 101, 108, 95, 99, 109, 100, 108, 105, 110, 101, 58, 32]

/-- "grub_kernel_cmdline ". -/
def oldGrubKernelCmdlineP : Bytes :=
  [103, 114, 117, 98, 95, 107, 101, 114, 110, 101, 108, 95, 99, 109, 100, 108,
   105, 110, 101, 32]

/-- The recognized GRUB payload heads, in the source's order:
"grub_cmd: ", "kernel_cmdline: ", "module_cmdline: ",
"grub_kernel_cmdline ", "grub_cmd ". -/
def validPrefixes : List Bytes :=
  [[103, 114, 117, 98, 95, 99, 109, 100, 58, 32],
   newGrubKernelCmdlineP,
   [109, 111, 100, 117, 108, 101, 95, 99, 109, 100, 108, 105, 110, 101, 58, 32],
   oldGrubKernelCmdlineP,
   [103, 114, 117, 98, 95, 99, 109, 100, 32]]

/-- The first-match loop over validPrefixes (suffixAt in the source). -/
def firstMatchLen : List Bytes → Bytes → Option Nat
  | [], _ => none
  | p :: ps, raw => if p.isPrefixOf raw then some p.length else firstMatchLen ps raw

/-- Modelled from the spec: verifyDataDigest (digest verifier, component D)
is not under src/; it accepts exactly when H(data) equals the digest. -/
def verifyDataDigest (H1 : Bytes → Bytes) (data digest : Bytes) :
    Option ExtractErr :=
  if H1 data = digest then none else some .invalidGrubDigest

/-- Modelled from the spec: verifyNullTerminatedDataDigest is not under
src/; the data must be non-empty and end in 0x00, and the digest must match
either the data or the data without its final 0 (per §4.D and the behavior
pinned by TestNullTerminatedDataDigest). -/
def verifyNullTerminatedDataDigest (H1 : Bytes → Bytes) (data digest : Bytes) :
    Option ExtractErr :=
  if data ≠ [] ∧ data.getLast? = some 0 ∧
      (H1 data = digest ∨ H1 data.dropLast = digest)
  then none else some .invalidGrubDigest

/-- A GRUB file entry: replayed digest plus the untrusted filename. -/
structure GrubFileT where
  Digest : Bytes
  UntrustedFilename : Bytes
  deriving DecidableEq, Repr

/-- pb.GrubState: files (TPM logs only) and raw command payloads. -/
structure GrubStateT where
  Files : List GrubFileT
  Commands : List Bytes
  deriving DecidableEq, Repr

/-- The event loop of GrubStateFromTPMLog: PCR8 commands, PCR9 files. -/
def grubTPMLoop (H1 : Bytes → Bytes) :
    List Event → Except ExtractErr (List GrubFileT × List Bytes)
  | [] => .ok ([], [])
  | e :: rest =>
    if e.Index ≠ 8 ∧ e.Index ≠ 9 then grubTPMLoop H1 rest
    else if e.Ty = EventTag then grubTPMLoop H1 rest
    else if e.Ty ≠ Ipl then .error (.invalidEventType e.Index)
    else if e.Index = 9 then
      match grubTPMLoop H1 rest with
      | .error er => .error er
      | .ok (fs, cs) => .ok (⟨e.Digest, e.Data⟩ :: fs, cs)
    else
      match firstMatchLen validPrefixes e.Data with
      | none => .error .invalidGrubData
      | some suffixAt =>
        match (if e.Data.drop suffixAt ≠ [] ∧ e.Data.getLast? = some 0
               then verifyNullTerminatedDataDigest H1 (e.Data.drop suffixAt) e.Digest
               else verifyDataDigest H1 (e.Data.drop suffixAt) e.Digest) with
        | some _ => .error .invalidGrubDigest
        | none =>
          match grubTPMLoop H1 rest with
          | .error er => .error er
          | .ok (fs, cs) => .ok (fs, e.Data :: cs)

/-- GrubStateFromTPMLog: extract GRUB commands from PCR8 and files from
PCR9; empty results are an error. -/
def GrubStateFromTPMLog (H1 : Bytes → Bytes) (events : List Event) :
    Except ExtractErr GrubStateT :=
  match grubTPMLoop H1 events with
  | .error e => .error e
  | .ok (files, commands) =>
    if files = [] ∧ commands = [] then .error .noGrubMeasurements
    else .ok ⟨files, commands⟩

/-- The event loop of GrubStateFromRTMRLog (RTMR index 3 in the event
stream); payloads with no recognized head are skipped, not rejected. -/
def grubRTMRLoop (H1 : Bytes → Bytes) :
    List Event → Except ExtractErr (List Bytes)
  | [] => .ok []
  | e :: rest =>
    if e.Index ≠ 3 then grubRTMRLoop H1 rest
    else if e.Ty = EventTag then grubRTMRLoop H1 rest
    else if e.Ty ≠ Ipl then .error (.invalidEventType e.Index)
    else
      match firstMatchLen validPrefixes e.Data with
      | none => grubRTMRLoop H1 rest
      | some suffixAt =>
        match (if e.Data.drop suffixAt ≠ [] ∧ e.Data.getLast? = some 0
               then verifyNullTerminatedDataDigest H1 (e.Data.drop suffixAt) e.Digest
               else verifyDataDigest H1 (e.Data.drop suffixAt) e.Digest) with
        | some _ => .error .invalidGrubDigest
        | none =>
          match grubRTMRLoop H1 rest with
          | .error er => .error er
          | .ok cs => .ok (e.Data :: cs)

/-- GrubStateFromRTMRLog: extract GRUB commands from RTMR2 (CC MR index 3);
empty results are an error. -/
def GrubStateFromRTMRLog (H1 : Bytes → Bytes) (events : List Event) :
    Except ExtractErr GrubStateT :=
  match grubRTMRLoop H1 events with
  | .error e => .error e
  | .ok commands =>
    if commands = [] then .error .noGrubMeasurements
    else .ok ⟨[], commands⟩

/-! ### Linux kernel command line -/

/-- pb.LinuxKernelState. -/
structure LinuxKernelStateT where
  CommandLine : Bytes
  deriving DecidableEq, Repr

/-- getGrubKernelCmdlineSuffix: old-style head first, then new-style. -/
def getGrubKernelCmdlineSuffixAt (grubCmd : Bytes) : Option Nat :=
  if oldGrubKernelCmdlineP.isPrefixOf grubCmd then some oldGrubKernelCmdlineP.length
  else if newGrubKernelCmdlineP.isPrefixOf grubCmd then some newGrubKernelCmdlineP.length
  else none

/-- The command loop of LinuxKernelStateFromGRUB: at most one command may
carry a kernel-cmdline head. -/
def linuxKernelLoop : List Bytes → Bool → Bytes → Except ExtractErr (Bool × Bytes)
  | [], seen, cmdline => .ok (seen, cmdline)
  | c :: rest, seen, cmdline =>
    match getGrubKernelCmdlineSuffixAt c with
    | none => linuxKernelLoop rest seen cmdline
    | some k =>
      if seen then .error .multipleKernelCmdline
      else linuxKernelLoop rest true (c.drop k)

/-- LinuxKernelStateFromGRUB (nil GrubState yields no commands). -/
def LinuxKernelStateFromGRUB (grub : Option GrubStateT) :
    Except ExtractErr LinuxKernelStateT :=
  match linuxKernelLoop ((grub.map GrubStateT.Commands).getD []) false [] with
  | .error e => .error e
  | .ok (_, cmdline) => .ok ⟨cmdline⟩

/-! ### EFI state -/

/-- Modelled from the spec: the EV_EFI_ACTION payload
"Calling EFI Application from Boot Manager\0" (§4.E.3). -/
def CallingEFIApplicationData : Bytes :=
  [67, 97, 108, 108, 105, 110, 103, 32, 69, 70, 73, 32, 65, 112, 112, 108,
   105, 99, 97, 116, 105, 111, 110, 32, 102, 114, 111, 109, 32, 66, 111, 111,
   116, 32, 77, 97, 110, 97, 103, 101, 114] ++ [0]

/-- Modelled from the spec: the EV_EFI_ACTION payload
"Exit Boot Services Invocation\0" (§4.E.3). -/
def ExitBootServicesInvocationData : Bytes :=
  [69, 120, 105, 116, 32, 66, 111, 111, 116, 32, 83, 101, 114, 118, 105, 99,
   101, 115, 32, 73, 110, 118, 111, 99, 97, 116, 105, 111, 110] ++ [0]

/-- Modelled from the spec: tcg.UntrustedParseEventType — the recognized
event-type constants of §6; anything else is an error. -/
def knownEventTypes : List Nat :=
  [3, Separator, EventTag, SCRTMVersion, Ipl, NonhostInfo,
   EFIVariableDriverConfig, 0x80000002, EFIBootServicesApplication,
   EFIBootServicesDriver, EFIRuntimeServicesDriver, EFIAction,
   EFIVariableAuthority]

/-- Modelled from the spec: tcg.UntrustedParseEventType. -/
def UntrustedParseEventType (t : Nat) : Except ExtractErr Nat :=
  if t ∈ knownEventTypes then .ok t else .error .unrecognizedEventType

/-- Modelled from the spec: DigestEquals (component D) — error unless
H(data) equals the event's replayed digest. -/
def DigestEquals (H1 : Bytes → Bytes) (e : Event) (data : Bytes) :
    Option ExtractErr :=
  if H1 data = e.Digest then none else some .digestMismatch

/-- pb.EfiState: app, boot-services-driver and runtime-services-driver
digests. -/
structure EfiStateT where
  Apps : List Bytes
  BootServicesDrivers : List Bytes
  RuntimeServicesDrivers : List Bytes
  deriving DecidableEq, Repr

/-- The event loop of EfiDriverState: collect driver digests measured
before the separator on the firmware-driver register. -/
def efiDriverLoop (H1 : Bytes → Bytes) (parseOk : Bytes → Bool) (driverIdx : Nat) :
    List Event → Bool → List Bytes → List Bytes →
    Except ExtractErr (List Bytes × List Bytes)
  | [], _, ds, rs => .ok (ds, rs)
  | e :: rest, seenSep, ds, rs =>
    if e.Index ≠ driverIdx then efiDriverLoop H1 parseOk driverIdx rest seenSep ds rs
    else
      match UntrustedParseEventType e.Ty with
      | .error er => .error er
      | .ok et =>
        if et = Separator then
          if seenSep then .error .duplicateSeparator
          else if e.Data ≠ [0, 0, 0, 0] then .error .invalidDriverSeparatorData
          else if (DigestEquals H1 e e.Data).isSome then .error .invalidDriverSeparatorDigest
          else efiDriverLoop H1 parseOk driverIdx rest true ds rs
        else if et = EFIBootServicesDriver then
          if ¬ seenSep then
            if ¬ parseOk e.Data then .error .imageLoadFailed
            else efiDriverLoop H1 parseOk driverIdx rest seenSep (ds ++ [e.Digest]) rs
          else efiDriverLoop H1 parseOk driverIdx rest seenSep ds rs
        else if et = EFIRuntimeServicesDriver then
          if ¬ seenSep then
            if ¬ parseOk e.Data then .error .imageLoadFailed
            else efiDriverLoop H1 parseOk driverIdx rest seenSep ds (rs ++ [e.Digest])
          else efiDriverLoop H1 parseOk driverIdx rest seenSep ds rs
        else efiDriverLoop H1 parseOk driverIdx rest seenSep ds rs

/-- EfiDriverState: boot-services and runtime-services driver digests.
`parseOk` stands in for tcg.ParseEFIImageLoad (not under src/). -/
def EfiDriverState (H1 : Bytes → Bytes) (parseOk : Bytes → Bool)
    (driverIdx : Nat) (events : List Event) :
    Except ExtractErr (List Bytes × List Bytes) :=
  efiDriverLoop H1 parseOk driverIdx events false [] []

/-- The scan state of EfiState's event loop. -/
structure EfiLoopSt where
  efiAppStates : List Bytes
  seenSeparator4 : Bool
  seenSeparator5 : Bool
  seenCallingEfiApp : Bool
  seenExitBootServices : Bool
  deriving DecidableEq, Repr

/-- The EFI-app-register block of EfiState's loop body. -/
def efiAppBlock (callingD : Bytes) (sep : separatorInfo) (e : Event)
    (st : EfiLoopSt) : Except ExtractErr EfiLoopSt :=
  match (if e.Digest = callingD then
           if e.Ty ≠ EFIAction then .error (.callingEfiAppWrongType)
           else if ¬ e.Verified then .error (.unverifiedCallingEfiApp)
           else if st.seenCallingEfiApp then .error (.duplicateCallingEfiApp)
           else if st.seenSeparator4 then .error (.callingEfiAppAfterSeparator)
           else .ok { st with seenCallingEfiApp := true }
         else (.ok st : Except ExtractErr EfiLoopSt)) with
  | .error er => .error er
  | .ok st1 =>
    match (if e.Ty = EFIBootServicesApplication then
             if ¬ st1.seenCallingEfiApp then .error (.appBeforeCallingEfiApp)
             else .ok { st1 with efiAppStates := st1.efiAppStates ++ [e.Digest] }
           else (.ok st1 : Except ExtractErr EfiLoopSt)) with
    | .error er => .error er
    | .ok st2 =>
      match checkIfValidSeparator e sep with
      | .error er => .error er
      | .ok true =>
        if st2.seenSeparator4 then .error .duplicateSeparator
        else .ok { st2 with seenSeparator4 := true }
      | .ok false => .ok st2

/-- The ExitBootServices-register block of EfiState's loop body; the Bool
result is true when the loop must stop (ExitBootServices observed). -/
def efiEbsBlock (exitD : Bytes) (sep : separatorInfo) (e : Event)
    (st : EfiLoopSt) : Except ExtractErr (EfiLoopSt × Bool) :=
  if e.Digest = exitD then
    if e.Ty ≠ EFIAction then .error (.ebsWrongType)
    else if ¬ e.Verified then .error (.unverifiedEbs)
    else .ok ({ st with seenExitBootServices := true }, true)
  else
    match checkIfValidSeparator e sep with
    | .error er => .error er
    | .ok true =>
      if st.seenSeparator5 then .error .duplicateSeparator
      else .ok ({ st with seenSeparator5 := true }, false)
    | .ok false => .ok (st, false)

/-- EfiState's event loop: both blocks run when an event's index matches
both registers (as in RTMR configurations where they coincide). -/
def efiLoop (appsIdx ebsIdx : Nat) (sep : separatorInfo) (callingD exitD : Bytes) :
    List Event → EfiLoopSt → Except ExtractErr EfiLoopSt
  | [], st => .ok st
  | e :: rest, st =>
    if e.Index ≠ appsIdx ∧ e.Index ≠ ebsIdx then
      efiLoop appsIdx ebsIdx sep callingD exitD rest st
    else
      match (if e.Index = appsIdx then efiAppBlock callingD sep e st
             else .ok st) with
      | .error er => .error er
      | .ok st1 =>
        match (if e.Index = ebsIdx then efiEbsBlock exitD sep e st1
               else .ok (st1, false)) with
        | .error er => .error er
        | .ok (st2, stop) =>
          if stop then .ok st2
          else efiLoop appsIdx ebsIdx sep callingD exitD rest st2

/-- Modelled from the spec: registerConfig — the per-log-type register
indices (§4.E) and the platform/GRUB extracter function fields. -/
structure registerConfig (PST : Type) where
  LogType : Nat
  PlatformExtracter : Nat → List Event → Option PST × Option ExtractErr
  GRUBExtracter : (Bytes → Bytes) → List Event → Except ExtractErr GrubStateT
  FirmwareDriverIdx : Nat
  EFIAppIdx : Nat
  ExitBootServicesIdx : Nat

/-- EfiState: walk the EFI-app and ExitBootServices registers; report an
EfiState only when ExitBootServices was observed, otherwise nil state and
nil error. -/
def EfiState {PST : Type} (H1 : Bytes → Bytes) (parseOk : Bytes → Bool)
    (cfg : registerConfig PST) (events : List Event) :
    Except ExtractErr (Option EfiStateT) :=
  match efiLoop cfg.EFIAppIdx cfg.ExitBootServicesIdx (getSeparatorInfo H1)
      (H1 CallingEFIApplicationData) (H1 ExitBootServicesInvocationData) events
      ⟨[], false, false, false, false⟩ with
  | .error er => .error er
  | .ok st =>
    if st.seenExitBootServices then
      match EfiDriverState H1 parseOk cfg.FirmwareDriverIdx events with
      | .error er => .error er
      | .ok (ds, rs) => .ok (some ⟨st.efiAppStates, ds, rs⟩)
    else .ok none

/-! ### FirmwareLogState -/

/-- extract.Opts: Loader (0 = unsupported, 1 = GRUB) and AllowEmptySBVar. -/
structure Opts where
  Loader : Nat
  AllowEmptySBVar : Bool
  deriving DecidableEq, Repr

/-- tpm2.HashToAlgorithm for the extract side. -/
def tpm2HashToAlgorithm (h : Nat) : Except ExtractErr Nat :=
  if h = 3 then .ok 4 else if h = 5 then .ok 11 else
  if h = 6 then .ok 12 else if h = 7 then .ok 13 else .error .hashUnsupported

/-- pb.FirmwareLogState over abstract platform-state, Secure-Boot-state and
proto-event types. -/
structure FirmwareLogStateT (PST SBT PBE : Type) where
  Platform : Option PST
  SecureBoot : Option SBT
  Efi : Option EfiStateT
  RawEvents : List PBE
  Hash : Nat
  Grub : Option GrubStateT
  LinuxKernel : Option LinuxKernelStateT
  LogType : Nat

/-- FirmwareLogState: run the subsystem extracters, keep every subsystem's
result in the returned state whether or not the others failed, and join the
individual errors in order (platform, Secure Boot, EFI, GRUB, kernel).
`convertToPbEvents` stands in for tcg.ConvertToPbEvents and `sbExtract` for
SecureBootState/ParseSecurebootState (not under src/). -/
def FirmwareLogState {PST SBT PBE : Type}
    (Hfn : Nat → Bytes → Bytes)
    (parseOk : Bytes → Bool)
    (convertToPbEvents : Nat → List Event → List PBE)
    (sbExtract : List Event → Opts → Option SBT × Option ExtractErr)
    (cfg : registerConfig PST)
    (events : List Event) (hash : Nat) (opts : Opts) :
    Option (FirmwareLogStateT PST SBT PBE) × List ExtractErr :=
  match tpm2HashToAlgorithm hash with
  | .error e => (none, [e])
  | .ok tcgHash =>
    let platformR := cfg.PlatformExtracter hash events
    let sbR := sbExtract events opts
    let efiR : Option EfiStateT × Option ExtractErr :=
      match EfiState (Hfn hash) parseOk cfg events with
      | .error er => (none, some er)
      | .ok o => (o, none)
    let grubR : Option GrubStateT × Option LinuxKernelStateT ×
        Option ExtractErr × Option ExtractErr :=
      if opts.Loader = 1 then
        match cfg.GRUBExtracter (Hfn hash) events with
        | .error er =>
          match LinuxKernelStateFromGRUB none with
          | .error er2 => (none, none, some er, some er2)
          | .ok k => (none, some k, some er, none)
        | .ok g =>
          match LinuxKernelStateFromGRUB (some g) with
          | .error er2 => (some g, none, none, some er2)
          | .ok k => (some g, some k, none, none)
      else (none, none, none, none)
    (some { Platform := platformR.1, SecureBoot := sbR.1, Efi := efiR.1,
            RawEvents := convertToPbEvents hash events, Hash := tcgHash,
            Grub := grubR.1, LinuxKernel := grubR.2.1, LogType := cfg.LogType },
     platformR.2.toList ++ sbR.2.toList ++ efiR.2.toList ++
       grubR.2.2.1.toList ++ grubR.2.2.2.toList)

/-- C5: an event is accepted as a separator iff its untrusted type is
EV_SEPARATOR, its digest is verified, and its payload is exactly 00000000 or
FFFFFFFF; an event whose replayed digest equals one of the two precomputed
separator digests but whose type is not EV_SEPARATOR is rejected as type
spoofing; an EV_SEPARATOR-typed event with an unverified digest, or with any
other payload, is also an error. -/
theorem C5_separator_checks (H1 : Bytes → Bytes) (event : Event) :
    (checkIfValidSeparator event (getSeparatorInfo H1) = .ok true ↔
      event.Ty = Separator ∧ event.Verified = true ∧
        (event.Data = [0, 0, 0, 0] ∨ event.Data = [255, 255, 255, 255]))
    ∧ (event.Ty ≠ Separator →
        containsB (getSeparatorInfo H1).separatorDigests event.Digest = true →
        checkIfValidSeparator event (getSeparatorInfo H1) =
          .error (.separatorSpoof event.Index event.Ty))
    ∧ (event.Ty = Separator → event.Verified = false →
        checkIfValidSeparator event (getSeparatorInfo H1) =
          .error (.unverifiedSeparator event.Index))
    ∧ (event.Ty = Separator → event.Verified = true →
        event.Data ≠ [0, 0, 0, 0] → event.Data ≠ [255, 255, 255, 255] →
        checkIfValidSeparator event (getSeparatorInfo H1) =
          .error (.invalidSeparatorData event.Index)) := by
  have hdata : containsB (getSeparatorInfo H1).separatorData event.Data = true ↔
      (event.Data = [0, 0, 0, 0] ∨ event.Data = [255, 255, 255, 255]) := by
    simp [containsB, getSeparatorInfo]
  refine ⟨⟨?_, ?_⟩, ?_, ?_, ?_⟩
  · intro h
    by_cases hty : event.Ty = Separator
    · by_cases hv : event.Verified
      · by_cases hd : containsB (getSeparatorInfo H1).separatorData event.Data
        · exact ⟨hty, hv, hdata.mp hd⟩
        · simp [checkIfValidSeparator, hty, hv, hd] at h
      · simp [checkIfValidSeparator, hty, hv] at h
    · by_cases hdig : containsB (getSeparatorInfo H1).separatorDigests event.Digest
      · simp [checkIfValidSeparator, hty, hdig] at h
      · simp [checkIfValidSeparator, hty, hdig] at h
  · rintro ⟨hty, hv, hd⟩
    have hc : containsB (getSeparatorInfo H1).separatorData event.Data = true :=
      hdata.mpr hd
    simp [checkIfValidSeparator, hty, hv, hc]
  · intro hty hdig
    simp [checkIfValidSeparator, hty, hdig]
  · intro hty hv
    simp [checkIfValidSeparator, hty, hv]
  · intro hty hv h0 hf
    have hc : ¬ containsB (getSeparatorInfo H1).separatorData event.Data = true := by
      rw [hdata]
      tauto
    simp [checkIfValidSeparator, hty, hv, hc]

/-- A valid separator event on register 0. -/
def evSep : Event := ⟨0, Separator, [0, 0, 0, 0], [0, 0, 0, 0], 0, true⟩

theorem C5_witness :
    checkIfValidSeparator evSep (getSeparatorInfo (fun l => l)) = .ok true :=
  (C5_separator_checks (fun l => l) evSep).1.mpr ⟨rfl, rfl, Or.inl rfl⟩

/-! ### GRUB extraction: event requirements (C6) -/

theorem grubTPMLoop_ok_tail (H1 : Bytes → Bytes) (e0 : Event) (rest : List Event)
    (st : List GrubFileT × List Bytes)
    (h : grubTPMLoop H1 (e0 :: rest) = .ok st) :
    ∃ st2, grubTPMLoop H1 rest = .ok st2 := by
  rw [grubTPMLoop] at h
  split at h
  · exact ⟨st, h⟩
  · split at h
    · exact ⟨st, h⟩
    · split at h
      · cases h
      · split at h
        · split at h
          · cases h
          · rename_i fs cs heq
            exact ⟨(fs, cs), heq⟩
        · split at h
          · cases h
          · split at h
            · cases h
            · split at h
              · cases h
              · rename_i fs cs heq
                exact ⟨(fs, cs), heq⟩

theorem grubTPMLoop_ok_events (H1 : Bytes → Bytes) :
    ∀ (events : List Event) (st : List GrubFileT × List Bytes),
      grubTPMLoop H1 events = .ok st →
      ∀ e ∈ events, (e.Index = 8 ∨ e.Index = 9) → e.Ty ≠ EventTag →
        e.Ty = Ipl ∧ (e.Index = 8 → firstMatchLen validPrefixes e.Data ≠ none)
  | [], _, _, e, he, _, _ => absurd he (List.not_mem_nil e)
  | e0 :: rest, st, h, e, he, hidx, htag => by
    rcases List.mem_cons.mp he with rfl | htail
    · have hcond : ¬ (e.Index ≠ 8 ∧ e.Index ≠ 9) := by tauto
      rw [grubTPMLoop, if_neg hcond, if_neg htag] at h
      by_cases hipl : e.Ty = Ipl
      · refine ⟨hipl, ?_⟩
        intro h8 hnone
        rw [if_neg (by simp [hipl, Ipl]), if_neg (by rw [h8]; decide), hnone] at h
        exact Except.noConfusion h
      · rw [if_pos hipl] at h
        exact Except.noConfusion h
    · obtain ⟨st2, h2⟩ := grubTPMLoop_ok_tail H1 e0 rest st h
      exact grubTPMLoop_ok_events H1 rest st2 h2 e htail hidx htag

theorem grubRTMRLoop_ok_tail (H1 : Bytes → Bytes) (e0 : Event) (rest : List Event)
    (st : List Bytes)
    (h : grubRTMRLoop H1 (e0 :: rest) = .ok st) :
    ∃ st2, grubRTMRLoop H1 rest = .ok st2 := by
  rw [grubRTMRLoop] at h
  split at h
  · exact ⟨st, h⟩
  · split at h
    · exact ⟨st, h⟩
    · split at h
      · cases h
      · split at h
        · exact ⟨st, h⟩
        · split at h
          · cases h
          · split at h
            · cases h
            · rename_i cs heq
              exact ⟨cs, heq⟩

theorem grubRTMRLoop_ok_events (H1 : Bytes → Bytes) :
    ∀ (events : List Event) (st : List Bytes),
      grubRTMRLoop H1 events = .ok st →
      ∀ e ∈ events, e.Index = 3 → e.Ty ≠ EventTag → e.Ty = Ipl
  | [], _, _, e, he, _, _ => absurd he (List.not_mem_nil e)
  | e0 :: rest, st, h, e, he, hidx, htag => by
    rcases List.mem_cons.mp he with rfl | htail
    · rw [grubRTMRLoop, if_neg (by simp [hidx]), if_neg htag] at h
      by_cases hipl : e.Ty = Ipl
      · exact hipl
      · rw [if_pos hipl] at h
        exact Except.noConfusion h
    · obtain ⟨st2, h2⟩ := grubRTMRLoop_ok_tail H1 e0 rest st h
      exact grubRTMRLoop_ok_events H1 rest st2 h2 e htail hidx htag

/-- C6 (amended): on the GRUB-commands registers every event that is not
EV_EVENT_TAG must be EV_IPL in both variants; GrubStateFromTPMLog
additionally rejects unrecognized payload heads on PCR8, but
GrubStateFromRTMRLog silently skips events whose payload begins with no
recognized head rather than erroring. -/
theorem C6_grub_event_requirements :
    (∀ (H1 : Bytes → Bytes) (events : List Event) (st : GrubStateT),
      GrubStateFromTPMLog H1 events = .ok st →
      ∀ e ∈ events, (e.Index = 8 ∨ e.Index = 9) → e.Ty ≠ EventTag →
        e.Ty = Ipl ∧ (e.Index = 8 → firstMatchLen validPrefixes e.Data ≠ none))
    ∧ (∀ (H1 : Bytes → Bytes) (events : List Event) (st : GrubStateT),
      GrubStateFromRTMRLog H1 events = .ok st →
      ∀ e ∈ events, e.Index = 3 → e.Ty ≠ EventTag → e.Ty = Ipl)
    ∧ (∀ (H1 : Bytes → Bytes) (e : Event) (rest : List Event),
      e.Index = 3 → e.Ty = Ipl → firstMatchLen validPrefixes e.Data = none →
      grubRTMRLoop H1 (e :: rest) = grubRTMRLoop H1 rest) := by
  refine ⟨?_, ?_, ?_⟩
  · intro H1 events st h
    rw [GrubStateFromTPMLog] at h
    cases hl : grubTPMLoop H1 events with
    | error er => rw [hl] at h; cases h
    | ok p => exact grubTPMLoop_ok_events H1 events p hl
  · intro H1 events st h
    rw [GrubStateFromRTMRLog] at h
    cases hl : grubRTMRLoop H1 events with
    | error er => rw [hl] at h; cases h
    | ok p => exact grubRTMRLoop_ok_events H1 events p hl
  · intro H1 e rest hidx hipl hnone
    rw [grubRTMRLoop, if_neg (by simp [hidx]),
      if_neg (by simp [hipl, Ipl, EventTag]), if_neg (by simp [hipl]), hnone]

/-- An EV_IPL event on the CC GRUB register whose payload has no recognized
head. -/
def eBadPfx : Event := ⟨3, Ipl, [120], [], 0, true⟩

/-- A well-formed GRUB command event on the CC GRUB register (digest of the
suffix under the identity hash). -/
def eGoodCmd : Event :=
  ⟨3, Ipl, [103, 114, 117, 98, 95, 99, 109, 100, 58, 32, 97], [97], 1, true⟩

/-- C6 counterexample: the RTMR variant accepts a log containing a
non-EV_EVENT_TAG EV_IPL event with an unrecognized payload head — it skips
the event instead of returning an error. -/
theorem C6_counterexample :
    eBadPfx.Index = 3 ∧ eBadPfx.Ty ≠ EventTag ∧
    firstMatchLen validPrefixes eBadPfx.Data = none ∧
    GrubStateFromRTMRLog (fun l => l) [eBadPfx, eGoodCmd] =
      .ok ⟨[], [[103, 114, 117, 98, 95, 99, 109, 100, 58, 32, 97]]⟩ :=
  ⟨rfl, by decide, by decide, rfl⟩

theorem C6_witness :
    grubRTMRLoop (fun l => l) [eBadPfx] = grubRTMRLoop (fun l => l) [] :=
  C6_grub_event_requirements.2.2 (fun l => l) eBadPfx [] rfl rfl (by decide)

/-! ### GRUB null-terminator tampering (C7) -/

theorem getLast?_drop (l : Bytes) :
    ∀ k, k < l.length → (l.drop k).getLast? = l.getLast? := by
  induction l with
  | nil =>
    intro k hk
    simp at hk
  | cons x xs ih =>
    intro k hk
    cases k with
    | zero => simp
    | succ k =>
      simp only [List.drop_succ_cons]
      rw [ih k (by simpa using hk)]
      have hxs : xs ≠ [] := by
        intro h
        rw [h] at hk
        simp at hk
      cases xs with
      | nil => exact absurd rfl hxs
      | cons y ys => rw [List.getLast?_cons_cons]

theorem take_mutated (raw : Bytes) (b j : Nat)
    (hj : j ≤ raw.length - 1) :
    (raw.dropLast ++ [b]).take j = raw.take j := by
  rw [List.dropLast_eq_take]
  rw [List.take_append_of_le_length (by simp; omega)]
  rw [List.take_take]
  congr 1
  omega

theorem length_mutated (raw : Bytes) (b : Nat) (hne : raw ≠ []) :
    (raw.dropLast ++ [b]).length = raw.length := by
  have : 1 ≤ raw.length := by
    cases raw with
    | nil => exact absurd rfl hne
    | cons x xs => simp
  simp [List.length_dropLast]
  omega

/-- Every recognized GRUB payload head ends in a space (0x20). -/
theorem validPrefixes_getLast :
    ∀ p ∈ validPrefixes, p.getLast? = some 32 := by
  decide

/-- No recognized GRUB payload head is a prefix of a different one. -/
theorem validPrefixes_no_mutual :
    ∀ p ∈ validPrefixes, ∀ q ∈ validPrefixes, p.isPrefixOf q = true → p = q := by
  decide

theorem firstMatchLen_exists (ps : List Bytes) (raw : Bytes) (k : Nat) :
    firstMatchLen ps raw = some k →
    ∃ p ∈ ps, p.isPrefixOf raw = true ∧ p.length = k := by
  induction ps with
  | nil => intro h; cases h
  | cons p ps ih =>
    intro h
    rw [firstMatchLen] at h
    by_cases hp : p.isPrefixOf raw = true
    · rw [if_pos hp] at h
      injection h with h
      exact ⟨p, by simp, hp, h⟩
    · rw [if_neg hp] at h
      obtain ⟨q, hq, hpre, hlen⟩ := ih h
      exact ⟨q, by simp [hq], hpre, hlen⟩

theorem firstMatchLen_congr (ps : List Bytes) (raw1 raw2 : Bytes)
    (h : ∀ q ∈ ps, q.isPrefixOf raw1 = q.isPrefixOf raw2) :
    firstMatchLen ps raw1 = firstMatchLen ps raw2 := by
  induction ps with
  | nil => rfl
  | cons p ps ih =>
    rw [firstMatchLen, firstMatchLen, h p (by simp)]
    by_cases hp : p.isPrefixOf raw2 = true
    · rw [if_pos hp, if_pos hp]
    · rw [if_neg hp, if_neg hp]
      exact ih (fun q hq => h q (by simp [hq]))

/-- Mutating the final byte of a payload does not change which GRUB head it
matches, provided the payload ends in 0x00 (so no head can be the whole
payload) and the match is proper. -/
theorem firstMatch_stable (raw : Bytes) (k b : Nat)
    (h : firstMatchLen validPrefixes raw = some k)
    (hlast : raw.getLast? = some 0) :
    k < raw.length ∧
    firstMatchLen validPrefixes (raw.dropLast ++ [b]) = some k := by
  have hne : raw ≠ [] := by
    intro hr
    rw [hr] at hlast
    cases hlast
  obtain ⟨p, hpmem, hppre, hplen⟩ := firstMatchLen_exists validPrefixes raw k h
  have hppre2 : p <+: raw := List.isPrefixOf_iff_prefix.mp hppre
  have hklen : k ≤ raw.length := hplen ▸ hppre2.length_le
  have hklt : k < raw.length := by
    rcases Nat.lt_or_ge k raw.length with hlt | hge
    · exact hlt
    · exfalso
      have : p = raw := hppre2.eq_of_length (by omega)
      rw [this] at hpmem
      have := validPrefixes_getLast raw hpmem
      rw [hlast] at this
      cases this
  refine ⟨hklt, ?_⟩
  rw [firstMatchLen_congr validPrefixes (raw.dropLast ++ [b]) raw ?_]
  · exact h
  · intro q hqmem
    rcases Nat.lt_trichotomy q.length raw.length with hqlt | hqeq | hqgt
    · -- q shorter than raw: prefix status determined by the unchanged bytes
      have htk : (raw.dropLast ++ [b]).take q.length = raw.take q.length :=
        take_mutated raw b q.length (by omega)
      by_cases hq : q.isPrefixOf raw = true
      · have : q <+: (raw.dropLast ++ [b]) := by
          rw [List.prefix_iff_eq_take, htk]
          exact List.prefix_iff_eq_take.mp (List.isPrefixOf_iff_prefix.mp hq)
        rw [hq, List.isPrefixOf_iff_prefix.mpr this]
      · have hq2 : ¬ q <+: raw := fun hc => hq (List.isPrefixOf_iff_prefix.mpr hc)
        have : ¬ q <+: (raw.dropLast ++ [b]) := by
          intro hc
          apply hq2
          rw [List.prefix_iff_eq_take] at hc ⊢
          rw [htk] at hc
          exact hc
        have h1 : q.isPrefixOf raw = false := by
          cases hgb : q.isPrefixOf raw with
          | false => rfl
          | true => exact absurd hgb hq
        have h2 : q.isPrefixOf (raw.dropLast ++ [b]) = false := by
          cases hgb : q.isPrefixOf (raw.dropLast ++ [b]) with
          | false => rfl
          | true => exact absurd (List.isPrefixOf_iff_prefix.mp hgb) this
        rw [h1, h2]
    · -- q exactly as long as raw: neither can match
      have hq1 : q.isPrefixOf raw = false := by
        cases hgb : q.isPrefixOf raw with
        | false => rfl
        | true =>
          exfalso
          have : q = raw := (List.isPrefixOf_iff_prefix.mp hgb).eq_of_length hqeq
          rw [this] at hqmem
          have := validPrefixes_getLast raw hqmem
          rw [hlast] at this
          cases this
      have hq2 : q.isPrefixOf (raw.dropLast ++ [b]) = false := by
        cases hgb : q.isPrefixOf (raw.dropLast ++ [b]) with
        | false => rfl
        | true =>
          exfalso
          have hlen2 : (raw.dropLast ++ [b]).length = raw.length :=
            length_mutated raw b hne
          have hqeq2 : q = raw.dropLast ++ [b] :=
            (List.isPrefixOf_iff_prefix.mp hgb).eq_of_length (by omega)
          -- p is a prefix of q, so p = q, contradicting p shorter than raw
          have hppre3 : p <+: (raw.dropLast ++ [b]) := by
            rw [List.prefix_iff_eq_take,
              take_mutated raw b p.length (by omega)]
            exact List.prefix_iff_eq_take.mp hppre2
          have hpq : p <+: q := hqeq2 ▸ hppre3
          have : p = q := validPrefixes_no_mutual p hpmem q hqmem
            (List.isPrefixOf_iff_prefix.mpr hpq)
          rw [this] at hplen
          omega
      rw [hq1, hq2]
    · -- q longer than raw: length rules both out
      have hlen2 : (raw.dropLast ++ [b]).length = raw.length :=
        length_mutated raw b hne
      have hq1 : q.isPrefixOf raw = false := by
        cases hgb : q.isPrefixOf raw with
        | false => rfl
        | true =>
          have := (List.isPrefixOf_iff_prefix.mp hgb).length_le
          omega
      have hq2 : q.isPrefixOf (raw.dropLast ++ [b]) = false := by
        cases hgb : q.isPrefixOf (raw.dropLast ++ [b]) with
        | false => rfl
        | true =>
          have := (List.isPrefixOf_iff_prefix.mp hgb).length_le
          omega
      rw [hq1, hq2]

theorem drop_mutated (raw : Bytes) (b k : Nat) (hk : k < raw.length) :
    (raw.dropLast ++ [b]).drop k = (raw.drop k).dropLast ++ [b] := by
  rw [List.drop_append_of_le_length (by simp [List.length_dropLast]; omega)]
  congr 1
  rw [List.dropLast_eq_take, List.dropLast_eq_take, List.drop_take]
  congr 1
  simp
  omega

theorem grubTPMLoop_append (H1 : Bytes → Bytes) :
    ∀ (xs ys : List Event),
      grubTPMLoop H1 (xs ++ ys) =
        match grubTPMLoop H1 xs with
        | .error e => .error e
        | .ok (f1, c1) =>
          match grubTPMLoop H1 ys with
          | .error e => .error e
          | .ok (f2, c2) => .ok (f1 ++ f2, c1 ++ c2)
  | [], ys => by
    rw [show grubTPMLoop H1 ([] : List Event) = .ok ([], []) from rfl]
    simp only [List.nil_append]
    cases h : grubTPMLoop H1 ys with
    | error e => rfl
    | ok p =>
      obtain ⟨f2, c2⟩ := p
      simp
  | x :: xs, ys => by
    have ih := grubTPMLoop_append H1 xs ys
    simp only [List.cons_append]
    simp only [grubTPMLoop]
    by_cases h1 : x.Index ≠ 8 ∧ x.Index ≠ 9
    · rw [if_pos h1, if_pos h1, ih]
    · rw [if_neg h1, if_neg h1]
      by_cases h2 : x.Ty = EventTag
      · rw [if_pos h2, if_pos h2, ih]
      · rw [if_neg h2, if_neg h2]
        by_cases h3 : x.Ty ≠ Ipl
        · rw [if_pos h3, if_pos h3]
        · rw [if_neg h3, if_neg h3]
          by_cases h4 : x.Index = 9
          · rw [if_pos h4, if_pos h4, ih]
            cases hxs : grubTPMLoop H1 xs with
            | error e => rfl
            | ok p =>
              obtain ⟨f1, c1⟩ := p
              cases hys : grubTPMLoop H1 ys with
              | error e => rfl
              | ok q =>
                obtain ⟨f2, c2⟩ := q
                simp
          · rw [if_neg h4, if_neg h4]
            cases h5 : firstMatchLen validPrefixes x.Data with
            | none => rfl
            | some k =>
              dsimp only
              cases h6 : (if x.Data.drop k ≠ [] ∧ x.Data.getLast? = some 0
                          then verifyNullTerminatedDataDigest H1 (x.Data.drop k) x.Digest
                          else verifyDataDigest H1 (x.Data.drop k) x.Digest) with
              | some er => rfl
              | none =>
                rw [ih]
                cases hxs : grubTPMLoop H1 xs with
                | error e => rfl
                | ok p =>
                  obtain ⟨f1, c1⟩ := p
                  cases hys : grubTPMLoop H1 ys with
                  | error e => rfl
                  | ok q =>
                    obtain ⟨f2, c2⟩ := q
                    simp

theorem grubRTMRLoop_append (H1 : Bytes → Bytes) :
    ∀ (xs ys : List Event),
      grubRTMRLoop H1 (xs ++ ys) =
        match grubRTMRLoop H1 xs with
        | .error e => .error e
        | .ok c1 =>
          match grubRTMRLoop H1 ys with
          | .error e => .error e
          | .ok c2 => .ok (c1 ++ c2)
  | [], ys => by
    rw [show grubRTMRLoop H1 ([] : List Event) = .ok [] from rfl]
    simp only [List.nil_append]
    cases h : grubRTMRLoop H1 ys with
    | error e => rfl
    | ok c2 => simp
  | x :: xs, ys => by
    have ih := grubRTMRLoop_append H1 xs ys
    simp only [List.cons_append]
    simp only [grubRTMRLoop]
    by_cases h1 : x.Index ≠ 3
    · rw [if_pos h1, if_pos h1, ih]
    · rw [if_neg h1, if_neg h1]
      by_cases h2 : x.Ty = EventTag
      · rw [if_pos h2, if_pos h2, ih]
      · rw [if_neg h2, if_neg h2]
        by_cases h3 : x.Ty ≠ Ipl
        · rw [if_pos h3, if_pos h3]
        · rw [if_neg h3, if_neg h3]
          cases h5 : firstMatchLen validPrefixes x.Data with
          | none => rw [ih]
          | some k =>
            dsimp only
            cases h6 : (if x.Data.drop k ≠ [] ∧ x.Data.getLast? = some 0
                        then verifyNullTerminatedDataDigest H1 (x.Data.drop k) x.Digest
                        else verifyDataDigest H1 (x.Data.drop k) x.Digest) with
            | some er => rfl
            | none =>
              rw [ih]
              cases hxs : grubRTMRLoop H1 xs with
              | error e => rfl
              | ok c1 =>
                cases hys : grubRTMRLoop H1 ys with
                | error e => rfl
                | ok c2 => simp

theorem grubTPMLoop_head8 (H1 : Bytes → Bytes) (e : Event) (post : List Event)
    (st : List GrubFileT × List Bytes)
    (h : grubTPMLoop H1 (e :: post) = .ok st)
    (h8 : e.Index = 8) (htag : e.Ty ≠ EventTag) :
    e.Ty = Ipl ∧ ∃ k, firstMatchLen validPrefixes e.Data = some k ∧
      (if e.Data.drop k ≠ [] ∧ e.Data.getLast? = some 0
       then verifyNullTerminatedDataDigest H1 (e.Data.drop k) e.Digest
       else verifyDataDigest H1 (e.Data.drop k) e.Digest) = none := by
  rw [grubTPMLoop, if_neg (by simp [h8]), if_neg htag] at h
  by_cases hipl : e.Ty = Ipl
  · refine ⟨hipl, ?_⟩
    rw [if_neg (by simp [hipl]), if_neg (by rw [h8]; decide)] at h
    cases h5 : firstMatchLen validPrefixes e.Data with
    | none =>
      rw [h5] at h
      cases h
    | some k =>
      rw [h5] at h
      dsimp only at h
      refine ⟨k, rfl, ?_⟩
      cases h6 : (if e.Data.drop k ≠ [] ∧ e.Data.getLast? = some 0
                  then verifyNullTerminatedDataDigest H1 (e.Data.drop k) e.Digest
                  else verifyDataDigest H1 (e.Data.drop k) e.Digest) with
      | some er =>
        rw [h6] at h
        cases h
      | none => rfl
  · rw [if_pos hipl] at h
    cases h

theorem grubTPMLoop_head8_err (H1 : Bytes → Bytes) (e : Event) (post : List Event)
    (h8 : e.Index = 8) (hipl : e.Ty = Ipl) (k : Nat)
    (hm : firstMatchLen validPrefixes e.Data = some k)
    (hchk : (if e.Data.drop k ≠ [] ∧ e.Data.getLast? = some 0
             then verifyNullTerminatedDataDigest H1 (e.Data.drop k) e.Digest
             else verifyDataDigest H1 (e.Data.drop k) e.Digest).isSome) :
    grubTPMLoop H1 (e :: post) = .error .invalidGrubDigest := by
  obtain ⟨er, her⟩ := Option.isSome_iff_exists.mp hchk
  rw [grubTPMLoop, if_neg (by simp [h8]),
    if_neg (by rw [hipl]; decide), if_neg (by simp [hipl]),
    if_neg (by rw [h8]; decide), hm]
  dsimp only
  rw [her]

theorem grubRTMRLoop_head3 (H1 : Bytes → Bytes) (e : Event) (post : List Event)
    (st : List Bytes)
    (h : grubRTMRLoop H1 (e :: post) = .ok st)
    (h3 : e.Index = 3) (htag : e.Ty ≠ EventTag) (k : Nat)
    (hm : firstMatchLen validPrefixes e.Data = some k) :
    e.Ty = Ipl ∧
      (if e.Data.drop k ≠ [] ∧ e.Data.getLast? = some 0
       then verifyNullTerminatedDataDigest H1 (e.Data.drop k) e.Digest
       else verifyDataDigest H1 (e.Data.drop k) e.Digest) = none := by
  rw [grubRTMRLoop, if_neg (by simp [h3]), if_neg htag] at h
  by_cases hipl : e.Ty = Ipl
  · refine ⟨hipl, ?_⟩
    rw [if_neg (by simp [hipl]), hm] at h
    dsimp only at h
    cases h6 : (if e.Data.drop k ≠ [] ∧ e.Data.getLast? = some 0
                then verifyNullTerminatedDataDigest H1 (e.Data.drop k) e.Digest
                else verifyDataDigest H1 (e.Data.drop k) e.Digest) with
    | some er =>
      rw [h6] at h
      cases h
    | none => rfl
  · rw [if_pos hipl] at h
    cases h

theorem grubRTMRLoop_head3_err (H1 : Bytes → Bytes) (e : Event) (post : List Event)
    (h3 : e.Index = 3) (hipl : e.Ty = Ipl) (k : Nat)
    (hm : firstMatchLen validPrefixes e.Data = some k)
    (hchk : (if e.Data.drop k ≠ [] ∧ e.Data.getLast? = some 0
             then verifyNullTerminatedDataDigest H1 (e.Data.drop k) e.Digest
             else verifyDataDigest H1 (e.Data.drop k) e.Digest).isSome) :
    grubRTMRLoop H1 (e :: post) = .error .invalidGrubDigest := by
  obtain ⟨er, her⟩ := Option.isSome_iff_exists.mp hchk
  rw [grubRTMRLoop, if_neg (by simp [h3]),
    if_neg (by rw [hipl]; decide), if_neg (by simp [hipl]), hm]
  dsimp only
  rw [her]

/-- After replacing the final 0x00 of an accepted GRUB payload with b ≠ 0,
the digest check fails (for an injective hash): the mutated suffix is
neither the original suffix nor its null-stripped form. -/
theorem mutated_check_fails (H1 : Bytes → Bytes) (hinj : Function.Injective H1)
    (data digest : Bytes) (k b : Nat)
    (hklt : k < data.length)
    (hlast : data.getLast? = some 0)
    (hb : b ≠ 0)
    (hchk : (if data.drop k ≠ [] ∧ data.getLast? = some 0
             then verifyNullTerminatedDataDigest H1 (data.drop k) digest
             else verifyDataDigest H1 (data.drop k) digest) = none) :
    (if (data.dropLast ++ [b]).drop k ≠ [] ∧
        (data.dropLast ++ [b]).getLast? = some 0
     then verifyNullTerminatedDataDigest H1 ((data.dropLast ++ [b]).drop k) digest
     else verifyDataDigest H1 ((data.dropLast ++ [b]).drop k) digest).isSome := by
  have hsufne : data.drop k ≠ [] := by
    intro hc
    have hlen := congrArg List.length hc
    simp at hlen
    omega
  rw [if_pos ⟨hsufne, hlast⟩] at hchk
  have hsuflast : (data.drop k).getLast? = some 0 := by
    rw [getLast?_drop data k hklt, hlast]
  have hdig : H1 (data.drop k) = digest ∨ H1 (data.drop k).dropLast = digest := by
    rw [verifyNullTerminatedDataDigest] at hchk
    by_cases hcc : (data.drop k ≠ [] ∧ (data.drop k).getLast? = some 0 ∧
        (H1 (data.drop k) = digest ∨ H1 (data.drop k).dropLast = digest))
    · exact hcc.2.2
    · rw [if_neg hcc] at hchk
      cases hchk
  have hdropm := drop_mutated data b k hklt
  have hlastm : (data.dropLast ++ [b]).getLast? = some b :=
    List.getLast?_concat _
  have hcnd : ¬ ((data.dropLast ++ [b]).drop k ≠ [] ∧
      (data.dropLast ++ [b]).getLast? = some 0) := by
    rintro ⟨_, hc⟩
    rw [hlastm] at hc
    injection hc with hc
    exact hb hc
  rw [if_neg hcnd, verifyDataDigest, hdropm]
  have hne2 : ¬ H1 ((data.drop k).dropLast ++ [b]) = digest := by
    intro hc
    rcases hdig with hd | hd
    · have heq : (data.drop k).dropLast ++ [b] = data.drop k :=
        hinj (hc.trans hd.symm)
      have hgl := congrArg List.getLast? heq
      rw [List.getLast?_concat, hsuflast] at hgl
      injection hgl with hgl
      exact hb hgl
    · have heq : (data.drop k).dropLast ++ [b] = (data.drop k).dropLast :=
        hinj (hc.trans hd.symm)
      have hlen := congrArg List.length heq
      simp at hlen
  rw [if_neg hne2]
  rfl

/-- C7 (amended): for an event list accepted by GRUB extraction in which
some GRUB-commands-register event that is not EV_EVENT_TAG (and, for the CC
variant, carries a recognized payload head) has a payload ending in 0x00,
replacing that final byte with any other value makes the extraction of the
mutated events fail, provided the hash function is injective. -/
theorem C7_null_terminator_mutation (H1 : Bytes → Bytes)
    (hinj : Function.Injective H1)
    (pre post : List Event) (e : Event) (b : Nat) (st : GrubStateT)
    (htag : e.Ty ≠ EventTag)
    (hlast : e.Data.getLast? = some 0)
    (hb : b ≠ 0) :
    (e.Index = 8 →
      GrubStateFromTPMLog H1 (pre ++ e :: post) = .ok st →
      ∃ er, GrubStateFromTPMLog H1
        (pre ++ { e with Data := e.Data.dropLast ++ [b] } :: post) = .error er)
    ∧ (e.Index = 3 →
      firstMatchLen validPrefixes e.Data ≠ none →
      GrubStateFromRTMRLog H1 (pre ++ e :: post) = .ok st →
      ∃ er, GrubStateFromRTMRLog H1
        (pre ++ { e with Data := e.Data.dropLast ++ [b] } :: post) = .error er) := by
  constructor
  · intro h8 hok
    rw [GrubStateFromTPMLog] at hok
    cases hl : grubTPMLoop H1 (pre ++ e :: post) with
    | error er =>
      rw [hl] at hok
      cases hok
    | ok p =>
      rw [grubTPMLoop_append H1 pre (e :: post)] at hl
      cases hpre : grubTPMLoop H1 pre with
      | error er =>
        rw [hpre] at hl
        cases hl
      | ok p1 =>
        rw [hpre] at hl
        cases hhead : grubTPMLoop H1 (e :: post) with
        | error er =>
          rw [hhead] at hl
          cases hl
        | ok p2 =>
          obtain ⟨hipl, k, hm, hchk⟩ :=
            grubTPMLoop_head8 H1 e post p2 hhead h8 htag
          obtain ⟨hklt, hstab⟩ := firstMatch_stable e.Data k b hm hlast
          have hchk' := mutated_check_fails H1 hinj e.Data e.Digest k b
            hklt hlast hb hchk
          have herr : grubTPMLoop H1
              ({ e with Data := e.Data.dropLast ++ [b] } :: post) =
              .error .invalidGrubDigest :=
            grubTPMLoop_head8_err H1 _ post h8 hipl k hstab hchk'
          refine ⟨.invalidGrubDigest, ?_⟩
          rw [GrubStateFromTPMLog,
            grubTPMLoop_append H1 pre ({ e with Data := e.Data.dropLast ++ [b] } :: post),
            hpre, herr]
  · intro h3 hmatch hok
    rw [GrubStateFromRTMRLog] at hok
    cases hl : grubRTMRLoop H1 (pre ++ e :: post) with
    | error er =>
      rw [hl] at hok
      cases hok
    | ok p =>
      rw [grubRTMRLoop_append H1 pre (e :: post)] at hl
      cases hpre : grubRTMRLoop H1 pre with
      | error er =>
        rw [hpre] at hl
        cases hl
      | ok p1 =>
        rw [hpre] at hl
        cases hhead : grubRTMRLoop H1 (e :: post) with
        | error er =>
          rw [hhead] at hl
          cases hl
        | ok p2 =>
          obtain ⟨k, hm⟩ := Option.ne_none_iff_exists'.mp hmatch
          obtain ⟨hipl, hchk⟩ :=
            grubRTMRLoop_head3 H1 e post p2 hhead h3 htag k hm
          obtain ⟨hklt, hstab⟩ := firstMatch_stable e.Data k b hm hlast
          have hchk' := mutated_check_fails H1 hinj e.Data e.Digest k b
            hklt hlast hb hchk
          have herr : grubRTMRLoop H1
              ({ e with Data := e.Data.dropLast ++ [b] } :: post) =
              .error .invalidGrubDigest :=
            grubRTMRLoop_head3_err H1 _ post h3 hipl k hstab hchk'
          refine ⟨.invalidGrubDigest, ?_⟩
          rw [GrubStateFromRTMRLog,
            grubRTMRLoop_append H1 pre ({ e with Data := e.Data.dropLast ++ [b] } :: post),
            hpre, herr]

/-- A well-formed null-terminated GRUB command event on PCR8 under the
identity hash: payload "grub_cmd: a\x00", digest of the suffix. -/
def eNullCmd : Event :=
  ⟨8, Ipl, [103, 114, 117, 98, 95, 99, 109, 100, 58, 32, 97, 0], [97, 0], 0, true⟩

/-- An EV_EVENT_TAG event on PCR8 whose payload ends in 0x00; GRUB
extraction skips it without any digest check. -/
def eTagNull : Event := ⟨8, EventTag, [0], [], 0, true⟩

/-- A well-formed GRUB command event on PCR8 under the identity hash. -/
def eGood8 : Event :=
  ⟨8, Ipl, [103, 114, 117, 98, 95, 99, 109, 100, 58, 32, 97], [97], 1, true⟩

/-- C7 counterexample: a GRUB-commands-register event whose payload ends in
0x00 but whose untrusted type is EV_EVENT_TAG is skipped, so mutating its
final byte leaves extraction successful — the claim fails without the
non-EV_EVENT_TAG condition (the identity hash here is injective, i.e.
collision-free on all inputs). -/
theorem C7_counterexample :
    eTagNull.Data.getLast? = some 0 ∧
    GrubStateFromTPMLog (fun l => l) [eTagNull, eGood8] =
      .ok ⟨[], [[103, 114, 117, 98, 95, 99, 109, 100, 58, 32, 97]]⟩ ∧
    GrubStateFromTPMLog (fun l => l)
      [{ eTagNull with Data := eTagNull.Data.dropLast ++ [255] }, eGood8] =
      .ok ⟨[], [[103, 114, 117, 98, 95, 99, 109, 100, 58, 32, 97]]⟩ ∧
    (255 : Nat) ≠ 0 :=
  ⟨rfl, rfl, rfl, by decide⟩

theorem C7_witness :
    GrubStateFromTPMLog (fun l => l) [eNullCmd] =
      .ok ⟨[], [[103, 114, 117, 98, 95, 99, 109, 100, 58, 32, 97, 0]]⟩ ∧
    ∃ er, GrubStateFromTPMLog (fun l => l)
      [{ eNullCmd with Data := eNullCmd.Data.dropLast ++ [255] }] = .error er := by
  refine ⟨rfl, ?_⟩
  exact (C7_null_terminator_mutation (fun l => l) (fun a b h => h) [] [] eNullCmd
    255 ⟨[], [[103, 114, 117, 98, 95, 99, 109, 100, 58, 32, 97, 0]]⟩
    (by decide) rfl (by decide)).1 rfl rfl

/-! ### EfiState gating on ExitBootServices (C4) -/

theorem efiAppBlock_seenEbs (callingD : Bytes) (sep : separatorInfo) (e : Event)
    (st st1 : EfiLoopSt) (h : efiAppBlock callingD sep e st = .ok st1) :
    st1.seenExitBootServices = st.seenExitBootServices := by
  unfold efiAppBlock at h
  split at h
  · cases h
  · rename_i stA heqA
    have hA : stA.seenExitBootServices = st.seenExitBootServices := by
      split at heqA
      · split at heqA
        · cases heqA
        · split at heqA
          · cases heqA
          · split at heqA
            · cases heqA
            · split at heqA
              · cases heqA
              · injection heqA with heqA
                subst heqA
                rfl
      · injection heqA with heqA
        subst heqA
        rfl
    split at h
    · cases h
    · rename_i stB heqB
      have hB : stB.seenExitBootServices = stA.seenExitBootServices := by
        split at heqB
        · split at heqB
          · cases heqB
          · injection heqB with heqB
            subst heqB
            rfl
        · injection heqB with heqB
          subst heqB
          rfl
      split at h
      · cases h
      · split at h
        · cases h
        · injection h with h
          subst h
          show stB.seenExitBootServices = st.seenExitBootServices
          rw [hB, hA]
      · injection h with h
        subst h
        rw [hB, hA]

theorem efiEbsBlock_seenEbs (exitD : Bytes) (sep : separatorInfo) (e : Event)
    (st st2 : EfiLoopSt) (stop : Bool)
    (h : efiEbsBlock exitD sep e st = .ok (st2, stop))
    (hs : st2.seenExitBootServices = true) :
    st.seenExitBootServices = true ∨
      (e.Digest = exitD ∧ e.Ty = EFIAction ∧ e.Verified = true) := by
  unfold efiEbsBlock at h
  split at h
  · rename_i hdig
    split at h
    · cases h
    · split at h
      · cases h
      · rename_i hty hv
        injection h with h
        rw [Prod.mk.injEq] at h
        refine Or.inr ⟨hdig, by push_neg at hty; exact hty, ?_⟩
        simpa using hv
  · split at h
    · cases h
    · split at h
      · cases h
      · injection h with h
        rw [Prod.mk.injEq] at h
        obtain ⟨h1, _⟩ := h
        rw [← h1] at hs
        exact Or.inl hs
    · injection h with h
      rw [Prod.mk.injEq] at h
      obtain ⟨h1, _⟩ := h
      rw [← h1] at hs
      exact Or.inl hs

theorem efiLoop_seenEbs (appsIdx ebsIdx : Nat) (sep : separatorInfo)
    (callingD exitD : Bytes) :
    ∀ (events : List Event) (st st' : EfiLoopSt),
      efiLoop appsIdx ebsIdx sep callingD exitD events st = .ok st' →
      st'.seenExitBootServices = true →
      st.seenExitBootServices = true ∨
        ∃ e ∈ events, e.Index = ebsIdx ∧ e.Digest = exitD ∧
          e.Ty = EFIAction ∧ e.Verified = true
  | [], st, st', h, hs => by
    rw [efiLoop] at h
    injection h with h
    subst h
    exact Or.inl hs
  | e :: rest, st, st', h, hs => by
    rw [efiLoop] at h
    by_cases hskip : e.Index ≠ appsIdx ∧ e.Index ≠ ebsIdx
    · rw [if_pos hskip] at h
      rcases efiLoop_seenEbs appsIdx ebsIdx sep callingD exitD rest st st' h hs with
        h1 | ⟨e2, he2, hrest⟩
      · exact Or.inl h1
      · exact Or.inr ⟨e2, by simp [he2], hrest⟩
    · rw [if_neg hskip] at h
      cases hbl1 : (if e.Index = appsIdx then efiAppBlock callingD sep e st
          else .ok st) with
      | error er =>
        rw [hbl1] at h
        cases h
      | ok st1 =>
        rw [hbl1] at h
        dsimp only at h
        have hst1 : st1.seenExitBootServices = st.seenExitBootServices := by
          by_cases hia : e.Index = appsIdx
          · rw [if_pos hia] at hbl1
            exact efiAppBlock_seenEbs callingD sep e st st1 hbl1
          · rw [if_neg hia] at hbl1
            injection hbl1 with hbl1
            subst hbl1
            rfl
        cases hbl2 : (if e.Index = ebsIdx then efiEbsBlock exitD sep e st1
            else .ok (st1, false)) with
        | error er =>
          rw [hbl2] at h
          cases h
        | ok p =>
          obtain ⟨st2, stop⟩ := p
          rw [hbl2] at h
          dsimp only at h
          have hblock2 : st2.seenExitBootServices = true →
              st1.seenExitBootServices = true ∨
                (e.Index = ebsIdx ∧ e.Digest = exitD ∧ e.Ty = EFIAction ∧
                  e.Verified = true) := by
            intro hs2
            by_cases hib : e.Index = ebsIdx
            · rw [if_pos hib] at hbl2
              rcases efiEbsBlock_seenEbs exitD sep e st1 st2 stop hbl2 hs2 with
                h1 | ⟨ha, hb, hc⟩
              · exact Or.inl h1
              · exact Or.inr ⟨hib, ha, hb, hc⟩
            · rw [if_neg hib] at hbl2
              injection hbl2 with hbl2
              rw [Prod.mk.injEq] at hbl2
              obtain ⟨h1, _⟩ := hbl2
              rw [← h1] at hs2
              exact Or.inl hs2
          cases stop with
          | true =>
            rw [if_pos rfl] at h
            injection h with h
            subst h
            rcases hblock2 hs with h1 | ⟨ha, hb, hc, hd⟩
            · rw [hst1] at h1
              exact Or.inl h1
            · exact Or.inr ⟨e, by simp, ha, hb, hc, hd⟩
          | false =>
            rw [if_neg (by simp)] at h
            rcases efiLoop_seenEbs appsIdx ebsIdx sep callingD exitD rest st2 st' h hs with
              h1 | ⟨e2, he2, hrest⟩
            · rcases hblock2 h1 with h2 | ⟨ha, hb, hc, hd⟩
              · rw [hst1] at h2
                exact Or.inl h2
              · exact Or.inr ⟨e, by simp, ha, hb, hc, hd⟩
            · exact Or.inr ⟨e2, by simp [he2], hrest⟩

/-- C4 (amended): when no event on the ExitBootServices register carries the
replayed digest H("Exit Boot Services Invocation\0"), EfiState returns
either nil state with nil error, or a validation error from the walk — never
an EFI state; and whenever EfiState does report a state, an ExitBootServices
event (EV_EFI_ACTION typed, digest-verified, with that digest) was observed
on that register. -/
theorem C4_efi_state {PST : Type} (H1 : Bytes → Bytes) (parseOk : Bytes → Bool)
    (cfg : registerConfig PST) (events : List Event) :
    ((∀ e ∈ events, ¬ (e.Index = cfg.ExitBootServicesIdx ∧
        e.Digest = H1 ExitBootServicesInvocationData)) →
      EfiState H1 parseOk cfg events = .ok none ∨
        ∃ er, EfiState H1 parseOk cfg events = .error er)
    ∧ (∀ s, EfiState H1 parseOk cfg events = .ok (some s) →
        ∃ e ∈ events, e.Index = cfg.ExitBootServicesIdx ∧
          e.Digest = H1 ExitBootServicesInvocationData ∧
          e.Ty = EFIAction ∧ e.Verified = true) := by
  constructor
  · intro hno
    unfold EfiState
    cases hl : efiLoop cfg.EFIAppIdx cfg.ExitBootServicesIdx (getSeparatorInfo H1)
        (H1 CallingEFIApplicationData) (H1 ExitBootServicesInvocationData) events
        ⟨[], false, false, false, false⟩ with
    | error er => exact Or.inr ⟨er, rfl⟩
    | ok st =>
      by_cases hs : st.seenExitBootServices = true
      · exfalso
        rcases efiLoop_seenEbs cfg.EFIAppIdx cfg.ExitBootServicesIdx
            (getSeparatorInfo H1) (H1 CallingEFIApplicationData)
            (H1 ExitBootServicesInvocationData) events _ st hl hs with
          h1 | ⟨e, he, hidx, hdig, _, _⟩
        · cases h1
        · exact hno e he ⟨hidx, hdig⟩
      · left
        simp [hs]
  · intro s h
    unfold EfiState at h
    split at h
    · cases h
    · rename_i st hl
      split at h
      · rename_i hs
        rcases efiLoop_seenEbs cfg.EFIAppIdx cfg.ExitBootServicesIdx
            (getSeparatorInfo H1) (H1 CallingEFIApplicationData)
            (H1 ExitBootServicesInvocationData) events _ st hl hs with
          h1 | ⟨e, he, hidx, hdig, hty, hv⟩
        · cases h1
        · exact ⟨e, he, hidx, hdig, hty, hv⟩
      · injection h with h
        cases h

/-- The TPM register configuration modelled from the spec's §4.E table:
drivers PCR2, apps PCR4, ExitBootServices PCR5, log type TCG2 (1). -/
def tpmCfg : registerConfig Nat :=
  ⟨1, fun _ _ => (none, none), fun H1 evs => GrubStateFromTPMLog H1 evs, 2, 4, 5⟩

/-- A type-spoofed separator event on the ExitBootServices register. -/
def eSpoof : Event := ⟨5, SCRTMVersion, [0, 0, 0, 0], [0, 0, 0, 0], 0, true⟩

/-- C4 counterexample: with no ExitBootServices-digest event present,
EfiState can still return an error (here a separator-spoofing rejection)
rather than nil state and nil error, so the claim's "no error" clause fails
as stated. -/
theorem C4_counterexample :
    eSpoof.Index = tpmCfg.ExitBootServicesIdx ∧
    eSpoof.Digest ≠ (fun l => l) ExitBootServicesInvocationData ∧
    EfiState (fun l => l) (fun _ => true) tpmCfg [eSpoof] =
      .error (.separatorSpoof 5 SCRTMVersion) :=
  ⟨rfl, by decide, rfl⟩

theorem C4_witness :
    EfiState (fun l => l) (fun _ => true) tpmCfg [] = .ok none ∨
      ∃ er, EfiState (fun l => l) (fun _ => true) tpmCfg [] = .error er :=
  (C4_efi_state (fun l => l) (fun _ => true) tpmCfg []).1
    (by intro e he; cases he)

/-! ### FirmwareLogState joins subsystem errors without dropping results (C3) -/

/-- C3: for every event list (with a TPM-supported hash), FirmwareLogState
returns a possibly partial state carrying the register configuration's log
type, the converted raw events and the chosen hash, in which each
subsystem's own result — platform, secure boot, EFI, GRUB and Linux
kernel — is kept regardless of the other subsystems' failures, together
with the join of the individual subsystem errors: each failing subsystem's
error (including a kernel-command-line extraction error) is a member of
the joined error, so callers can match the individual kinds. -/
theorem C3_firmware_log_state {PST SBT PBE : Type}
    (Hfn : Nat → Bytes → Bytes) (parseOk : Bytes → Bool)
    (convertToPbEvents : Nat → List Event → List PBE)
    (sbExtract : List Event → Opts → Option SBT × Option ExtractErr)
    (cfg : registerConfig PST) (events : List Event) (hash : Nat) (opts : Opts)
    (tcgHash : Nat) (hh : tpm2HashToAlgorithm hash = .ok tcgHash) :
    ∃ st joined,
      FirmwareLogState Hfn parseOk convertToPbEvents sbExtract cfg events hash opts =
        (some st, joined) ∧
      st.Platform = (cfg.PlatformExtracter hash events).1 ∧
      st.SecureBoot = (sbExtract events opts).1 ∧
      st.RawEvents = convertToPbEvents hash events ∧
      st.Hash = tcgHash ∧
      st.LogType = cfg.LogType ∧
      (∀ s, EfiState (Hfn hash) parseOk cfg events = .ok s → st.Efi = s) ∧
      (∀ er, EfiState (Hfn hash) parseOk cfg events = .error er →
        st.Efi = none ∧ er ∈ joined) ∧
      (opts.Loader = 1 → ∀ g, cfg.GRUBExtracter (Hfn hash) events = .ok g →
        st.Grub = some g) ∧
      (opts.Loader = 1 → ∀ er, cfg.GRUBExtracter (Hfn hash) events = .error er →
        st.Grub = none ∧ er ∈ joined) ∧
      (opts.Loader = 1 → ∀ g k, cfg.GRUBExtracter (Hfn hash) events = .ok g →
        LinuxKernelStateFromGRUB (some g) = .ok k → st.LinuxKernel = some k) ∧
      (opts.Loader = 1 → ∀ g er, cfg.GRUBExtracter (Hfn hash) events = .ok g →
        LinuxKernelStateFromGRUB (some g) = .error er →
        st.LinuxKernel = none ∧ er ∈ joined) ∧
      (opts.Loader = 1 → ∀ er k, cfg.GRUBExtracter (Hfn hash) events = .error er →
        LinuxKernelStateFromGRUB none = .ok k → st.LinuxKernel = some k) ∧
      (opts.Loader ≠ 1 → st.Grub = none ∧ st.LinuxKernel = none) ∧
      (∀ er, (cfg.PlatformExtracter hash events).2 = some er → er ∈ joined) ∧
      (∀ er, (sbExtract events opts).2 = some er → er ∈ joined) := by
  unfold FirmwareLogState
  rw [hh]
  dsimp only
  rcases hefi : EfiState (Hfn hash) parseOk cfg events with er | o <;>
    by_cases hld : opts.Loader = 1
  · -- EFI error, GRUB loader
    rw [if_pos hld]
    rcases hgr : cfg.GRUBExtracter (Hfn hash) events with er2 | g
    · rw [show LinuxKernelStateFromGRUB none = .ok ⟨[]⟩ from rfl]
      dsimp only
      refine ⟨_, _, rfl, rfl, rfl, rfl, rfl, rfl, ?_, ?_, ?_, ?_, ?_, ?_, ?_, ?_, ?_, ?_⟩
      · intro s hc
        exact Except.noConfusion hc
      · intro er' hc
        rw [Except.error.injEq] at hc
        subst hc
        exact ⟨rfl, by simp⟩
      · intro _ g hc
        exact Except.noConfusion hc
      · intro _ er' hc
        rw [Except.error.injEq] at hc
        subst hc
        exact ⟨rfl, by simp⟩
      · intro _ g k hgr' _
        exact Except.noConfusion hgr'
      · intro _ g er' hgr' _
        exact Except.noConfusion hgr'
      · intro _ er' k _ hk'
        rw [Except.ok.injEq] at hk'
        subst hk'
        rfl
      · intro hc
        exact absurd hld hc
      · intro er' h2
        rw [h2]
        simp
      · intro er' h2
        rw [h2]
        simp
    · dsimp only
      rcases hk : LinuxKernelStateFromGRUB (some g) with er3 | k
      · dsimp only
        refine ⟨_, _, rfl, rfl, rfl, rfl, rfl, rfl, ?_, ?_, ?_, ?_, ?_, ?_, ?_, ?_, ?_, ?_⟩
        · intro s hc
          exact Except.noConfusion hc
        · intro er' hc
          rw [Except.error.injEq] at hc
          subst hc
          exact ⟨rfl, by simp⟩
        · intro _ g2 hc
          rw [Except.ok.injEq] at hc
          subst hc
          rfl
        · intro _ er' hc
          exact Except.noConfusion hc
        · intro _ g2 k2 hgr' hk'
          rw [Except.ok.injEq] at hgr'
          subst hgr'
          rw [hk] at hk'
          exact Except.noConfusion hk'
        · intro _ g2 er' hgr' hk'
          rw [Except.ok.injEq] at hgr'
          subst hgr'
          rw [hk] at hk'
          rw [Except.error.injEq] at hk'
          subst hk'
          exact ⟨rfl, by simp⟩
        · intro _ er' k2 hgr' _
          exact Except.noConfusion hgr'
        · intro hc
          exact absurd hld hc
        · intro er' h2
          rw [h2]
          simp
        · intro er' h2
          rw [h2]
          simp
      · dsimp only
        refine ⟨_, _, rfl, rfl, rfl, rfl, rfl, rfl, ?_, ?_, ?_, ?_, ?_, ?_, ?_, ?_, ?_, ?_⟩
        · intro s hc
          exact Except.noConfusion hc
        · intro er' hc
          rw [Except.error.injEq] at hc
          subst hc
          exact ⟨rfl, by simp⟩
        · intro _ g2 hc
          rw [Except.ok.injEq] at hc
          subst hc
          rfl
        · intro _ er' hc
          exact Except.noConfusion hc
        · intro _ g2 k2 hgr' hk'
          rw [Except.ok.injEq] at hgr'
          subst hgr'
          rw [hk] at hk'
          rw [Except.ok.injEq] at hk'
          subst hk'
          rfl
        · intro _ g2 er' hgr' hk'
          rw [Except.ok.injEq] at hgr'
          subst hgr'
          rw [hk] at hk'
          exact Except.noConfusion hk'
        · intro _ er' k2 hgr' _
          exact Except.noConfusion hgr'
        · intro hc
          exact absurd hld hc
        · intro er' h2
          rw [h2]
          simp
        · intro er' h2
          rw [h2]
          simp
  · -- EFI error, no loader
    rw [if_neg hld]
    dsimp only
    refine ⟨_, _, rfl, rfl, rfl, rfl, rfl, rfl, ?_, ?_, ?_, ?_, ?_, ?_, ?_, ?_, ?_, ?_⟩
    · intro s hc
      exact Except.noConfusion hc
    · intro er' hc
      rw [Except.error.injEq] at hc
      subst hc
      exact ⟨rfl, by simp⟩
    · intro hc
      exact absurd hc hld
    · intro hc
      exact absurd hc hld
    · intro hc
      exact absurd hc hld
    · intro hc
      exact absurd hc hld
    · intro hc
      exact absurd hc hld
    · intro _
      exact ⟨rfl, rfl⟩
    · intro er' h2
      rw [h2]
      simp
    · intro er' h2
      rw [h2]
      simp
  · -- EFI ok, GRUB loader
    rw [if_pos hld]
    rcases hgr : cfg.GRUBExtracter (Hfn hash) events with er2 | g
    · rw [show LinuxKernelStateFromGRUB none = .ok ⟨[]⟩ from rfl]
      dsimp only
      refine ⟨_, _, rfl, rfl, rfl, rfl, rfl, rfl, ?_, ?_, ?_, ?_, ?_, ?_, ?_, ?_, ?_, ?_⟩
      · intro s hc
        rw [Except.ok.injEq] at hc
        subst hc
        rfl
      · intro er' hc
        exact Except.noConfusion hc
      · intro _ g hc
        exact Except.noConfusion hc
      · intro _ er' hc
        rw [Except.error.injEq] at hc
        subst hc
        exact ⟨rfl, by simp⟩
      · intro _ g k hgr' _
        exact Except.noConfusion hgr'
      · intro _ g er' hgr' _
        exact Except.noConfusion hgr'
      · intro _ er' k _ hk'
        rw [Except.ok.injEq] at hk'
        subst hk'
        rfl
      · intro hc
        exact absurd hld hc
      · intro er' h2
        rw [h2]
        simp
      · intro er' h2
        rw [h2]
        simp
    · dsimp only
      rcases hk : LinuxKernelStateFromGRUB (some g) with er3 | k
      · dsimp only
        refine ⟨_, _, rfl, rfl, rfl, rfl, rfl, rfl, ?_, ?_, ?_, ?_, ?_, ?_, ?_, ?_, ?_, ?_⟩
        · intro s hc
          rw [Except.ok.injEq] at hc
          subst hc
          rfl
        · intro er' hc
          exact Except.noConfusion hc
        · intro _ g2 hc
          rw [Except.ok.injEq] at hc
          subst hc
          rfl
        · intro _ er' hc
          exact Except.noConfusion hc
        · intro _ g2 k2 hgr' hk'
          rw [Except.ok.injEq] at hgr'
          subst hgr'
          rw [hk] at hk'
          exact Except.noConfusion hk'
        · intro _ g2 er' hgr' hk'
          rw [Except.ok.injEq] at hgr'
          subst hgr'
          rw [hk] at hk'
          rw [Except.error.injEq] at hk'
          subst hk'
          exact ⟨rfl, by simp⟩
        · intro _ er' k2 hgr' _
          exact Except.noConfusion hgr'
        · intro hc
          exact absurd hld hc
        · intro er' h2
          rw [h2]
          simp
        · intro er' h2
          rw [h2]
          simp
      · dsimp only
        refine ⟨_, _, rfl, rfl, rfl, rfl, rfl, rfl, ?_, ?_, ?_, ?_, ?_, ?_, ?_, ?_, ?_, ?_⟩
        · intro s hc
          rw [Except.ok.injEq] at hc
          subst hc
          rfl
        · intro er' hc
          exact Except.noConfusion hc
        · intro _ g2 hc
          rw [Except.ok.injEq] at hc
          subst hc
          rfl
        · intro _ er' hc
          exact Except.noConfusion hc
        · intro _ g2 k2 hgr' hk'
          rw [Except.ok.injEq] at hgr'
          subst hgr'
          rw [hk] at hk'
          rw [Except.ok.injEq] at hk'
          subst hk'
          rfl
        · intro _ g2 er' hgr' hk'
          rw [Except.ok.injEq] at hgr'
          subst hgr'
          rw [hk] at hk'
          exact Except.noConfusion hk'
        · intro _ er' k2 hgr' _
          exact Except.noConfusion hgr'
        · intro hc
          exact absurd hld hc
        · intro er' h2
          rw [h2]
          simp
        · intro er' h2
          rw [h2]
          simp
  · -- EFI ok, no loader
    rw [if_neg hld]
    dsimp only
    refine ⟨_, _, rfl, rfl, rfl, rfl, rfl, rfl, ?_, ?_, ?_, ?_, ?_, ?_, ?_, ?_, ?_, ?_⟩
    · intro s hc
      rw [Except.ok.injEq] at hc
      subst hc
      rfl
    · intro er' hc
      exact Except.noConfusion hc
    · intro hc
      exact absurd hc hld
    · intro hc
      exact absurd hc hld
    · intro hc
      exact absurd hc hld
    · intro hc
      exact absurd hc hld
    · intro hc
      exact absurd hc hld
    · intro _
      exact ⟨rfl, rfl⟩
    · intro er' h2
      rw [h2]
      simp
    · intro er' h2
      rw [h2]
      simp

theorem C3_witness :
    ∃ (st : FirmwareLogStateT Nat Nat Nat) (joined : List ExtractErr),
      FirmwareLogState (fun _ l => l) (fun _ => true) (fun _ _ => [])
        (fun _ _ => (none, none)) tpmCfg [] 5 ⟨1, false⟩ = (some st, joined) ∧
      st.Platform = (tpmCfg.PlatformExtracter 5 []).1 ∧
      st.SecureBoot = none ∧
      st.RawEvents = [] ∧
      st.Hash = 11 ∧
      st.LogType = tpmCfg.LogType ∧
      (∀ s, EfiState (fun l => l) (fun _ => true) tpmCfg [] = .ok s →
        st.Efi = s) ∧
      (∀ er, EfiState (fun l => l) (fun _ => true) tpmCfg [] = .error er →
        st.Efi = none ∧ er ∈ joined) ∧
      ((1 : Nat) = 1 → ∀ g, tpmCfg.GRUBExtracter (fun l => l) [] = .ok g →
        st.Grub = some g) ∧
      ((1 : Nat) = 1 → ∀ er, tpmCfg.GRUBExtracter (fun l => l) [] = .error er →
        st.Grub = none ∧ er ∈ joined) ∧
      ((1 : Nat) = 1 → ∀ g k, tpmCfg.GRUBExtracter (fun l => l) [] = .ok g →
        LinuxKernelStateFromGRUB (some g) = .ok k → st.LinuxKernel = some k) ∧
      ((1 : Nat) = 1 → ∀ g er, tpmCfg.GRUBExtracter (fun l => l) [] = .ok g →
        LinuxKernelStateFromGRUB (some g) = .error er →
        st.LinuxKernel = none ∧ er ∈ joined) ∧
      ((1 : Nat) = 1 → ∀ er k, tpmCfg.GRUBExtracter (fun l => l) [] = .error er →
        LinuxKernelStateFromGRUB none = .ok k → st.LinuxKernel = some k) ∧
      ((1 : Nat) ≠ 1 → st.Grub = none ∧ st.LinuxKernel = none) ∧
      (∀ er, (tpmCfg.PlatformExtracter 5 []).2 = some er → er ∈ joined) ∧
      (∀ er, (none : Option ExtractErr) = some er → er ∈ joined) :=
  @C3_firmware_log_state Nat Nat Nat (fun _ l => l) (fun _ => true)
    (fun _ _ => []) (fun _ _ => (none, none)) tpmCfg [] 5 ⟨1, false⟩ 11 rfl

end GoEL
